import Mathlib

/-!
Verification of the update-discovery and classification pipeline of
go-check-updates: the go.mod require-index parser, the `go list -m -u -json`
stream decoder, the cooldown evaluator, the annotate-and-filter stage and the
grouping / sort-key assignment.

The Go sources are shallowly embedded: strings are processed as `List Char`
with structural helpers mirroring the `strings` package functions the code
calls, machine integers become `Int`/`Nat`, `time.Time` becomes an `Int`
count of nanoseconds since the Unix epoch, and Go maps keyed by strings
become functions `String → Option _`.  Recursions that Go expresses as
loops over a decoder are given explicit fuel; the fuel supplied at the top
level always exceeds any possible number of iterations, so it is an
artifact of totality, not of behaviour.
-/

namespace strutil

/-- Character class used by `strings.TrimSpace` / `strings.Fields`
(`unicode.IsSpace` over the Latin-1 range). -/
def isSpaceChar (c : Char) : Bool :=
  c = ' ' || c = '\t' || c = '\n' || c = '\x0b' || c = '\x0c' || c = '\r' ||
  c = '\u0085' || c = ' '

/-- Embedding of `strings.TrimSpace` on the character list. -/
def trimChars (cs : List Char) : List Char :=
  ((cs.dropWhile isSpaceChar).reverse.dropWhile isSpaceChar).reverse

/-- Does `cs` start with the pattern `pat`?  Embedding of `strings.HasPrefix
pat` read with the pattern first. -/
def listStarts : List Char → List Char → Bool
  | [], _ => true
  | _ :: _, [] => false
  | p :: ps, c :: cs => p = c && listStarts ps cs

/-- Embedding of `strings.Contains haystack pat` (substring test). -/
def listHas : List Char → List Char → Bool
  | cs, [] =>
    match cs with
    | _ => true
  | [], _ :: _ => false
  | c :: cs, p :: ps => listStarts (p :: ps) (c :: cs) || listHas cs (p :: ps)

/-- Split a character list at every occurrence of the separator character,
mirroring `strings.Split` with a one-character separator: the result is
always non-empty and keeps empty pieces. -/
def splitOnChar (sep : Char) : List Char → List (List Char)
  | [] => [[]]
  | c :: rest =>
    let ls := splitOnChar sep rest
    if c = sep then [] :: ls
    else (c :: ls.head!) :: ls.tail

/-- Embedding of `strings.Fields`: maximal runs of non-whitespace characters. -/
def fieldsOf : List Char → List (List Char)
  | [] => []
  | c :: rest =>
    if isSpaceChar c then fieldsOf rest
    else
      match fieldsOf rest with
      | [] => [[c]]
      | f :: fs =>
        match rest with
        | [] => [[c]]
        | r :: _ => if isSpaceChar r then [c] :: f :: fs else (c :: f) :: fs

/-- All-digit test plus value, for `strconv.Atoi`: `some n` when `cs` is a
non-empty sequence of decimal digits. -/
def digitsVal : List Char → Option Nat
  | [] => none
  | [c] => if c.isDigit then some (c.toNat - 48) else none
  | c :: rest =>
    if c.isDigit then
      (digitsVal rest).map (fun n => (c.toNat - 48) * 10 ^ rest.length + n)
    else none

/-- Embedding of `strconv.Atoi`: optional sign followed by at least one
digit.  The Go function also range-checks against 64-bit bounds; versions
large enough to overflow do not occur and the embedding leaves the value
unbounded. -/
def atoi (cs : List Char) : Option Int :=
  match cs with
  | '-' :: rest => (digitsVal rest).map (fun n => -(n : Int))
  | '+' :: rest => (digitsVal rest).map (fun n => (n : Int))
  | _ => (digitsVal cs).map (fun n => (n : Int))

end strutil

namespace gomod

open strutil

/-- `RequireIndex` maps a module path to its `// indirect` flag: `some false`
is a direct requirement, `some true` an indirect one, `none` not listed. -/
abbrev RequireIndex := String → Option Bool

/-- The empty index, `make(RequireIndex)`. -/
def emptyIndex : RequireIndex := fun _ => none

/-- The `(path, indirect)` pair a require entry line denotes, if any:
everything after the first `//` is the comment, the remainder must have at
least two whitespace-separated fields, the first field is the path and the
entry is indirect when the comment contains `indirect`.  Lines with fewer
than two fields are skipped (`none`). -/
def lineEntry (line : List Char) : Option (String × Bool) :=
  let split := findCommentSplit line
  let body := split.1
  let comment := split.2
  match fieldsOf body with
  | p :: _ :: _ => some (⟨p⟩, listHas comment "indirect".toList)
  | _ => none
where
  /-- Split at the first `//`: `(strings.TrimSpace line[:i], line[i+2:])`,
  or `(line, "")` when no `//` occurs. -/
  findCommentSplit : List Char → List Char × List Char
    | [] => ([], [])
    | '/' :: '/' :: rest => ([], rest)
    | c :: rest =>
      let r := findCommentSplit rest
      (c :: r.1, r.2)

/-- Record one `(path, indirect)` sighting in the index, with the
direct-wins rule of `parseRequireLine`: a path already recorded direct
stays direct, a path recorded indirect takes the new flag, a new path takes
the new flag. -/
def recordEntry (dst : RequireIndex) (path : String) (indirect : Bool) : RequireIndex :=
  let newVal : Bool :=
    match dst path with
    | some existing => if existing then indirect else false
    | none => indirect
  fun q => if q = path then some newVal else dst q

/-- Embedding of `parseRequireLine`. -/
def parseRequireLine (dst : RequireIndex) (line : List Char) : RequireIndex :=
  match lineEntry line with
  | some pb => recordEntry dst pb.1 pb.2
  | none => dst

/-- The line scan of `ParseRequireIndex`: trimmed lines, `require (` opens a
block, a lone `)` closes it, `require ` starts a single-line entry, and
lines inside a block are entry lines. -/
def requireScan : RequireIndex → Bool → List (List Char) → RequireIndex
  | idx, _, [] => idx
  | idx, inBlock, rawLine :: rest =>
    let line := trimChars rawLine
    if line = [] then requireScan idx inBlock rest
    else if listStarts "require (".toList line then requireScan idx true rest
    else if inBlock && line = [')'] then requireScan idx false rest
    else if listStarts "require ".toList line then
      requireScan (parseRequireLine idx (trimChars (line.drop 8))) inBlock rest
    else if inBlock then requireScan (parseRequireLine idx line) inBlock rest
    else requireScan idx inBlock rest

/-- Embedding of `ParseRequireIndex`. -/
def ParseRequireIndex (goModContents : String) : RequireIndex :=
  requireScan emptyIndex false (splitOnChar '\n' goModContents.toList)

/-- The entry lines the scan hands to `parseRequireLine`, in scan order:
the same traversal as `requireScan`, collecting instead of folding. -/
def entryLinesScan : Bool → List (List Char) → List (List Char)
  | _, [] => []
  | inBlock, rawLine :: rest =>
    let line := trimChars rawLine
    if line = [] then entryLinesScan inBlock rest
    else if listStarts "require (".toList line then entryLinesScan true rest
    else if inBlock && line = [')'] then entryLinesScan false rest
    else if listStarts "require ".toList line then
      trimChars (line.drop 8) :: entryLinesScan inBlock rest
    else if inBlock then line :: entryLinesScan inBlock rest
    else entryLinesScan inBlock rest

/-- The `(path, indirect)` entries a manifest declares, in the order the
scan sees them. -/
def manifestEntries (goModContents : String) : List (String × Bool) :=
  (entryLinesScan false (splitOnChar '\n' goModContents.toList)).filterMap lineEntry

end gomod

namespace cooldown

open strutil

/-- Value of a decimal digit character, `none` otherwise. -/
def digitVal (c : Char) : Option Nat :=
  if c.isDigit then some (c.toNat - 48) else none

/-- Exactly two decimal digits. -/
def parse2 : List Char → Option (Nat × List Char)
  | a :: b :: rest =>
    match digitVal a, digitVal b with
    | some x, some y => some (x * 10 + y, rest)
    | _, _ => none
  | _ => none

/-- Exactly four decimal digits. -/
def parse4 : List Char → Option (Nat × List Char)
  | a :: b :: c :: d :: rest =>
    match digitVal a, digitVal b, digitVal c, digitVal d with
    | some x, some y, some z, some w => some (((x * 10 + y) * 10 + z) * 10 + w, rest)
    | _, _, _, _ => none
  | _ => none

/-- Expect one fixed character. -/
def expectChar (c : Char) : List Char → Option (List Char)
  | x :: rest => if x = c then some rest else none
  | [] => none

/-- Shortcut for a boolean side condition inside `Option` do-notation. -/
def ensure (b : Bool) : Option Unit :=
  if b then some () else none

def isLeapYear (y : Nat) : Bool :=
  (y % 4 = 0 && y % 100 ≠ 0) || y % 400 = 0

def daysInMonth (y m : Nat) : Nat :=
  if m = 2 then (if isLeapYear y then 29 else 28)
  else if m = 4 || m = 6 || m = 9 || m = 11 then 30
  else 31

/-- Days from the civil date to the Unix epoch (Howard Hinnant's civil
calendar algorithm, as the standard library's calendar arithmetic computes). -/
def daysFromCivil (y m d : Int) : Int :=
  let y' := if m ≤ 2 then y - 1 else y
  let era := (if 0 ≤ y' then y' else y' - 399).tdiv 400
  let yoe := y' - era * 400
  let mp := (m + 9).emod 12
  let doy := (153 * mp + 2).tdiv 5 + d - 1
  let doe := yoe * 365 + yoe.tdiv 4 - yoe.tdiv 100 + doy
  era * 146097 + doe - 719468

/-- Optional fractional second after the seconds field: a dot followed by at
least one digit; the value is truncated to nanoseconds. -/
def parseFrac : List Char → Option (Nat × List Char)
  | '.' :: rest =>
    let ds := rest.takeWhile Char.isDigit
    if ds = [] then none
    else
      match digitsVal (ds.take 9) with
      | some v => some (v * 10 ^ (9 - min 9 ds.length), rest.dropWhile Char.isDigit)
      | none => none
  | cs => some (0, cs)

/-- Time-zone offset: `Z` or `±hh:mm`, in seconds east of UTC. -/
def parseOffset : List Char → Option (Int × List Char)
  | 'Z' :: rest => some (0, rest)
  | '+' :: rest => parseOffsetHm 1 rest
  | '-' :: rest => parseOffsetHm (-1) rest
  | _ => none
where
  parseOffsetHm (sign : Int) (cs : List Char) : Option (Int × List Char) := do
    let (oh, r) ← parse2 cs
    let r ← expectChar ':' r
    let (om, r) ← parse2 r
    let _ ← ensure (oh ≤ 23 && om ≤ 59)
    pure (sign * ((oh : Int) * 3600 + om * 60), r)

/-- Nanoseconds since the Unix epoch of a broken-down UTC date-time with a
fractional-second part and a zone offset in seconds. -/
def dateTimeNanos (y mo d hh mi ss frac : Nat) (offs : Int) : Int :=
  (daysFromCivil (y : Int) (mo : Int) (d : Int) * 86400
    + (hh : Int) * 3600 + (mi : Int) * 60 + (ss : Int) - offs) * 1000000000
    + (frac : Int)

/-- Modelled from the Go standard library: `time.Parse` with an RFC-3339
layout, which accepts `YYYY-MM-DDTHH:MM:SS`, an optional fractional second,
and a `Z` or `±hh:mm` offset, and requires the whole string to be consumed.
The result is nanoseconds since the Unix epoch. -/
def parseRFC3339Core (s : String) : Option Int :=
  match parse4 s.toList with
  | none => none
  | some (y, r0) =>
  match expectChar '-' r0 with
  | none => none
  | some r1 =>
  match parse2 r1 with
  | none => none
  | some (mo, r2) =>
  match expectChar '-' r2 with
  | none => none
  | some r3 =>
  match parse2 r3 with
  | none => none
  | some (d, r4) =>
  match expectChar 'T' r4 with
  | none => none
  | some r5 =>
  match parse2 r5 with
  | none => none
  | some (hh, r6) =>
  match expectChar ':' r6 with
  | none => none
  | some r7 =>
  match parse2 r7 with
  | none => none
  | some (mi, r8) =>
  match expectChar ':' r8 with
  | none => none
  | some r9 =>
  match parse2 r9 with
  | none => none
  | some (ss, r10) =>
  if 1 ≤ mo && mo ≤ 12 && 1 ≤ d && d ≤ daysInMonth y mo
      && hh ≤ 23 && mi ≤ 59 && ss ≤ 59 then
    match parseFrac r10 with
    | none => none
    | some (frac, r11) =>
    match parseOffset r11 with
    | none => none
    | some (offs, r12) =>
    if r12 = [] then some (dateTimeNanos y mo d hh mi ss frac offs) else none
  else none

/-- Modelled from the Go standard library: `time.Parse(time.RFC3339Nano, s)`.
Both RFC-3339 layouts parse the same texts (the fractional second is
optional for either), so both share the core above. -/
def parseRFC3339Nano (s : String) : Option Int := parseRFC3339Core s

/-- Modelled from the Go standard library: `time.Parse(time.RFC3339, s)`. -/
def parseRFC3339 (s : String) : Option Int := parseRFC3339Core s

/-- The age comparison at the end of `Eligible`: clamp a negative age to
zero and compare with `minDays` of 24 hours, in nanoseconds. -/
def ageCheck (minDays now t : Int) : Bool :=
  let age := now - t
  let age := if age < 0 then 0 else age
  decide (minDays * 86400000000000 ≤ age)

/-- Embedding of `cooldown.Eligible`: whether a version published at
`updateTime` is at least `minDays` days old at `now`. -/
def Eligible (updateTime : String) (minDays : Int) (now : Int) : Bool :=
  if minDays ≤ 0 then true
  else if updateTime = "" then false
  else
    match parseRFC3339Nano updateTime with
    | some t => ageCheck minDays now t
    | none =>
      match parseRFC3339 updateTime with
      | some t => ageCheck minDays now t
      | none => false

end cooldown

namespace style

open strutil

/-- The version-delta classification of the `style` package. -/
inductive DiffType where
  | DiffMajor
  | DiffMinor
  | DiffPatch
  | DiffSame
  | DiffUnknown
  deriving DecidableEq

/-- Embedding of `isPseudoVersion`: at least two hyphens
(`strings.Count(v, "-") >= 2`). -/
def isPseudoVersion (v : String) : Bool :=
  decide (2 ≤ v.toList.count '-')

/-- Embedding of `parseSemverCore`: trim, strip one leading `v`, cut at the
first `-` or `+`, split on `.`, and read the first three components with
`strconv.Atoi`, rejecting negatives. -/
def parseSemverCore (v : String) : Option (Int × Int × Int) :=
  let t := trimChars v.toList
  if t = [] then none
  else
    let t2 := match t with
      | 'v' :: rest => rest
      | _ => t
    let t3 := t2.takeWhile (fun c => !(c = '-' || c = '+'))
    match splitOnChar '.' t3 with
    | p0 :: p1 :: p2 :: _ =>
      match atoi p0, atoi p1, atoi p2 with
      | some ma, some mi, some pa =>
        if ma < 0 ∨ mi < 0 ∨ pa < 0 then none else some (ma, mi, pa)
      | _, _, _ => none
    | _ => none

/-- Embedding of `GetDiffType`. -/
def GetDiffType (v1 v2 : String) : DiffType :=
  if isPseudoVersion v1 || isPseudoVersion v2 then .DiffUnknown
  else if v1 = v2 then .DiffSame
  else
    match parseSemverCore v1, parseSemverCore v2 with
    | some (ma1, mi1, pa1), some (ma2, mi2, pa2) =>
      if ma1 ≠ ma2 then .DiffMajor
      else if mi1 ≠ mi2 then .DiffMinor
      else if pa1 ≠ pa2 then .DiffPatch
      else .DiffSame
    | _, _ => .DiffUnknown

end style

namespace scanner

/-- Vulnerability counts attached to a module version (`json:"-"`, never
decoded from the report stream). -/
structure VulnInfo where
  Low : Int
  Medium : Int
  High : Int
  Critical : Int
  Total : Int
  deriving DecidableEq

/-- The non-recursive fields of a `scanner.Module`. -/
structure ModuleData where
  Path : String
  Version : String
  Time : String
  Indirect : Bool
  FromGoMod : Bool
  VulnCurrent : VulnInfo
  VulnUpdate : VulnInfo
  deriving DecidableEq

/-- Embedding of `scanner.Module`: the `Update` field recursively holds a
module of the same shape, or `none` for a nil pointer. -/
inductive Module where
  | mk : ModuleData → Option Module → Module

def Module.data : Module → ModuleData
  | .mk d _ => d

def Module.Update : Module → Option Module
  | .mk _ u => u

def Module.Path (m : Module) : String := m.data.Path

def Module.Version (m : Module) : String := m.data.Version

def Module.Time (m : Module) : String := m.data.Time

def Module.Indirect (m : Module) : Bool := m.data.Indirect

def Module.FromGoMod (m : Module) : Bool := m.data.FromGoMod

/-- The zero `VulnInfo`. -/
def zeroVuln : VulnInfo := ⟨0, 0, 0, 0, 0⟩

end scanner

namespace format

open strutil scanner style

/-- The four presentation groups of the `format` package. -/
inductive DiffGroup where
  | GroupMajor
  | GroupMinor
  | GroupPatch
  | GroupUnknown
  deriving DecidableEq

/-- Embedding of `format.GroupForModule`: a `v0.x -> v0.y` minor bump is
promoted to the major group. -/
def GroupForModule (m : Module) : DiffGroup :=
  match m.Update with
  | none => .GroupUnknown
  | some u =>
    match GetDiffType m.Version u.Version with
    | .DiffMajor => .GroupMajor
    | .DiffMinor =>
      if listStarts "v0.".toList m.Version.toList
          && listStarts "v0.".toList u.Version.toList then .GroupMajor
      else .GroupMinor
    | .DiffPatch => .GroupPatch
    | _ => .GroupUnknown

/-- Embedding of `format.GroupLabel`. -/
def GroupLabel (m : Module) : String :=
  match m.Update with
  | none => "Unknown"
  | some u =>
    let diff := GetDiffType m.Version u.Version
    if diff = .DiffMajor then "Major"
    else if diff = .DiffMinor then
      if listStarts "v0.".toList m.Version.toList
          && listStarts "v0.".toList u.Version.toList then "Major (v0)"
      else "Minor"
    else if diff = .DiffPatch then "Patch"
    else "Unknown"

/-- Embedding of `format.GroupSortKey`. -/
def GroupSortKey (m : Module) : Int :=
  match GroupForModule m with
  | .GroupMajor => 0
  | .GroupMinor => 1
  | .GroupPatch => 2
  | .GroupUnknown => 3

/-- Update record of the C5 counterexample: version `0.2.0`, written without
the `v` prefix. -/
def v0ClaimCexUpd : Module :=
  .mk ⟨"example.com/m", "0.2.0", "", false, false, zeroVuln, zeroVuln⟩ none

/-- C5 counterexample record: `0.1.0 -> 0.2.0`, a minor bump whose version
strings begin with `0.` but not with `v0.`. -/
def v0ClaimCex : Module :=
  .mk ⟨"example.com/m", "0.1.0", "", false, false, zeroVuln, zeroVuln⟩
    (some v0ClaimCexUpd)

/-- Update record of the C5 witness: version `v0.2.0`. -/
def v0WitnessUpd : Module :=
  .mk ⟨"example.com/m", "v0.2.0", "", false, false, zeroVuln, zeroVuln⟩ none

/-- C5 witness record: `v0.1.0 -> v0.2.0`. -/
def v0Witness : Module :=
  .mk ⟨"example.com/m", "v0.1.0", "", false, false, zeroVuln, zeroVuln⟩
    (some v0WitnessUpd)

end format

namespace scanner

open strutil

/-- Embedding of `scanner.Options`.  The compiled regular expression is
embedded extensionally, as the match predicate `MatchString` it provides. -/
structure Options where
  Filter : String
  FilterRegex : Option (String → Bool)
  IncludeAll : Bool
  CooldownDays : Int

/-- Overwrite a record with the manifest classification, as the loop body
does when the path is found in the index: `FromGoMod = true` and `Indirect`
taken from the index. -/
def Module.setManifest : Module → Bool → Module
  | .mk d u, ind =>
    .mk ⟨d.Path, d.Version, d.Time, ind, true, d.VulnCurrent, d.VulnUpdate⟩ u

/-- The go.mod override step of `AnnotateAndFilter`: a record whose path is
in the index is re-classified from the index, any other record is kept
as decoded. -/
def annotateModule (idx : gomod.RequireIndex) (m : Module) : Module :=
  match idx m.Path with
  | some ind => m.setManifest ind
  | none => m

/-- The name-filter stage of `AnnotateAndFilter`: no filter keeps
everything; otherwise substring containment first, then the compiled
regular expression when the substring test fails. -/
def nameFilterKeeps (opts : Options) (path : String) : Bool :=
  if opts.Filter = "" then true
  else if listHas path.toList opts.Filter.toList then true
  else
    match opts.FilterRegex with
    | some re => re path
    | none => false

/-- The regular-expression half of the name filter on its own
(`opts.FilterRegex != nil && opts.FilterRegex.MatchString(path)`). -/
def regexMatches (opts : Options) (path : String) : Bool :=
  match opts.FilterRegex with
  | some re => re path
  | none => false

/-- The cooldown stage of `AnnotateAndFilter`: only applied when
`CooldownDays > 0`. -/
def cooldownKeeps (opts : Options) (now : Int) (updTime : String) : Bool :=
  if 0 < opts.CooldownDays then cooldown.Eligible updTime opts.CooldownDays now
  else true

/-- Embedding of `scanner.AnnotateAndFilter`: drop records without an
update, re-classify from the index, then apply the include-all, name-filter
and cooldown stages in the source order. -/
def AnnotateAndFilter : List Module → gomod.RequireIndex → Options → Int → List Module
  | [], _, _, _ => []
  | m :: rest, idx, opts, now =>
    match m.Update with
    | none => AnnotateAndFilter rest idx opts now
    | some u =>
      let m' := annotateModule idx m
      if !opts.IncludeAll && !m'.FromGoMod then AnnotateAndFilter rest idx opts now
      else if !nameFilterKeeps opts m'.Path then AnnotateAndFilter rest idx opts now
      else if !cooldownKeeps opts now u.Time then AnnotateAndFilter rest idx opts now
      else m' :: AnnotateAndFilter rest idx opts now

/-- Update record for the C4 witness record `a`. -/
def c4UpdA : Module :=
  .mk ⟨"example.com/a", "v1.2.0", "2023-01-01T00:00:00Z", false, false,
    zeroVuln, zeroVuln⟩ none

/-- Update record for the C4 witness record `b`. -/
def c4UpdB : Module :=
  .mk ⟨"example.com/b", "v1.1.0", "2023-01-01T00:00:00Z", false, false,
    zeroVuln, zeroVuln⟩ none

/-- Update record for the C4 witness record `c`. -/
def c4UpdC : Module :=
  .mk ⟨"example.com/c", "v0.6.0", "2023-01-01T00:00:00Z", false, false,
    zeroVuln, zeroVuln⟩ none

/-- C4 witness record `a`: declared direct in the manifest. -/
def c4ModA : Module :=
  .mk ⟨"example.com/a", "v1.0.0", "", false, false, zeroVuln, zeroVuln⟩ (some c4UpdA)

/-- C4 witness record `b`: declared indirect in the manifest. -/
def c4ModB : Module :=
  .mk ⟨"example.com/b", "v1.0.0", "", true, false, zeroVuln, zeroVuln⟩ (some c4UpdB)

/-- C4 witness record `c`: not declared in the manifest. -/
def c4ModC : Module :=
  .mk ⟨"example.com/c", "v0.5.0", "", true, false, zeroVuln, zeroVuln⟩ (some c4UpdC)

/-- C4 witness manifest index: `a` direct, `b` indirect, nothing else. -/
def c4Idx : gomod.RequireIndex := fun p =>
  if p = "example.com/a" then some false
  else if p = "example.com/b" then some true
  else none

/-- C4 witness options: `includeAll = true`, no name filter, no cooldown. -/
def c4Opts : Options := ⟨"", none, true, 0⟩

/-- Update record for the C7 witness record `trans`. -/
def c7UpdTrans : Module :=
  .mk ⟨"trans", "v1.1.0", "2023-01-01T00:00:00Z", false, false,
    zeroVuln, zeroVuln⟩ none

/-- Update record for the C7 witness record `direct`. -/
def c7UpdDirect : Module :=
  .mk ⟨"direct", "v1.1.0", "2023-01-01T00:00:00Z", false, false,
    zeroVuln, zeroVuln⟩ none

/-- C7 witness record with identifier `direct` (does not contain `tr`). -/
def c7Direct : Module :=
  .mk ⟨"direct", "v1.0.0", "", false, false, zeroVuln, zeroVuln⟩ (some c7UpdDirect)

/-- C7 witness record with identifier `trans` (contains `tr`). -/
def c7Trans : Module :=
  .mk ⟨"trans", "v1.0.0", "", false, false, zeroVuln, zeroVuln⟩ (some c7UpdTrans)

/-- C7 witness options: name filter `tr` (with its compiled regular
expression matching the same substring), `includeAll = true`, no cooldown. -/
def c7Opts : Options :=
  ⟨"tr", some (fun s => strutil.listHas s.toList "tr".toList), true, 0⟩

/-- JSON whitespace, as both `encoding/json` and RFC 8259 define it. -/
def jsonWs (c : Char) : Bool :=
  c = ' ' || c = '\t' || c = '\n' || c = '\r'

/-- Skip leading JSON whitespace. -/
def skipWs (cs : List Char) : List Char :=
  cs.dropWhile jsonWs

/-- Modelled from the Go standard library: the JSON values `encoding/json`
reads.  A number is kept as its lexeme, which the decoder never consumes
for a `Module`. -/
inductive Json where
  | null
  | bool (b : Bool)
  | num (lit : String)
  | str (s : String)
  | arr (elems : List Json)
  | obj (members : List (String × Json))

/-- Value of one hexadecimal digit. -/
def hexVal (c : Char) : Option Nat :=
  if '0' ≤ c ∧ c ≤ '9' then some (c.toNat - 48)
  else if 'a' ≤ c ∧ c ≤ 'f' then some (c.toNat - 87)
  else if 'A' ≤ c ∧ c ≤ 'F' then some (c.toNat - 55)
  else none

/-- Value of a four-digit hexadecimal escape, `none` when any digit is
invalid. -/
def hex4 (h1 h2 h3 h4 : Char) : Option Nat :=
  match hexVal h1, hexVal h2, hexVal h3, hexVal h4 with
  | some a, some b, some c, some d => some (((a * 16 + b) * 16 + c) * 16 + d)
  | _, _, _, _ => none

/-- The single-character string escapes of JSON. -/
def escChar (c : Char) : Option Char :=
  if c = '"' then some '"'
  else if c = '\\' then some '\\'
  else if c = '/' then some '/'
  else if c = 'b' then some (Char.ofNat 8)
  else if c = 'f' then some (Char.ofNat 12)
  else if c = 'n' then some '\n'
  else if c = 'r' then some '\r'
  else if c = 't' then some '\t'
  else none

/-- Body of a JSON string after its opening quote: content up to the
closing quote plus the remainder.  Escapes are decoded; a `\u` escape reads
four hexadecimal digits (surrogate pairing is not modelled); an unescaped
control character below U+0020 is a syntax error, as `encoding/json`
enforces. -/
def parseStringBody : List Char → Option (List Char × List Char)
  | [] => none
  | c :: rest =>
    if c = '"' then some ([], rest)
    else if c = '\\' then
      match rest with
      | [] => none
      | e :: rest2 =>
        if e = 'u' then
          match rest2 with
          | h1 :: h2 :: h3 :: h4 :: rest3 =>
            match hex4 h1 h2 h3 h4 with
            | some n => (parseStringBody rest3).map (fun sr => (Char.ofNat n :: sr.1, sr.2))
            | none => none
          | _ => none
        else
          match escChar e with
          | some ec => (parseStringBody rest2).map (fun sr => (ec :: sr.1, sr.2))
          | none => none
    else if c.toNat < 32 then none
    else (parseStringBody rest).map (fun sr => (c :: sr.1, sr.2))

/-- Characters a JSON number lexeme is made of. -/
def numChar (c : Char) : Bool :=
  c.isDigit || c = '-' || c = '+' || c = '.' || c = 'e' || c = 'E'

/-- Trailing exponent of a JSON number lexeme, as `encoding/json` checks
it: either empty, or `e`/`E`, an optional sign and one or more digits
filling the rest of the lexeme. -/
def numExpOk (cs : List Char) : Bool :=
  match cs with
  | [] => true
  | e :: t =>
    if e = 'e' || e = 'E' then
      match t with
      | '+' :: t2 => !t2.isEmpty && t2.all Char.isDigit
      | '-' :: t2 => !t2.isEmpty && t2.all Char.isDigit
      | t2 => !t2.isEmpty && t2.all Char.isDigit
    else false

/-- Trailing fraction-and-exponent of a JSON number lexeme: either an
exponent part, or `.` followed by one or more digits and an exponent
part. -/
def numFracOk (cs : List Char) : Bool :=
  match cs with
  | '.' :: t => !(t.takeWhile Char.isDigit).isEmpty && numExpOk (t.dropWhile Char.isDigit)
  | _ => numExpOk cs

/-- An unsigned JSON number lexeme: integer part `0` or a nonzero digit
followed by more digits, then fraction and exponent parts. -/
def validNumberBody (cs : List Char) : Bool :=
  match cs with
  | '0' :: t => numFracOk t
  | c :: t => if c.isDigit then numFracOk (t.dropWhile Char.isDigit) else false
  | [] => false

/-- The JSON number grammar of RFC 8259, which `encoding/json` enforces: an
optional minus sign and an unsigned number filling the whole lexeme. -/
def validNumber (cs : List Char) : Bool :=
  match cs with
  | '-' :: t => validNumberBody t
  | t => validNumberBody t

/-- A number lexeme: the maximal run of number characters, which must be
non-empty and well formed by the JSON number grammar — `encoding/json`
rejects malformed runs such as `1e+` or `--5` as syntax errors. -/
def parseNumberFrom (cs : List Char) : Option (Json × List Char) :=
  match cs.takeWhile numChar with
  | [] => none
  | d :: ds =>
    if validNumber (d :: ds) then some (.num ⟨d :: ds⟩, cs.dropWhile numChar)
    else none

mutual

/-- Modelled from the Go standard library: one JSON value read by
`json.Decoder.Decode`, returning the value and the unread remainder.  The
fuel argument only bounds recursion; any fuel beyond the input length is
enough. -/
def parseValue : Nat → List Char → Option (Json × List Char)
  | 0, _ => none
  | fuel + 1, cs =>
    match skipWs cs with
    | [] => none
    | c :: rest =>
      if c = '{' then parseObjectBody fuel rest
      else if c = '[' then parseArrayBody fuel rest
      else if c = '"' then
        match parseStringBody rest with
        | some sr => some (.str ⟨sr.1⟩, sr.2)
        | none => none
      else if c = 't' then
        if listStarts "rue".toList rest then some (.bool true, rest.drop 3) else none
      else if c = 'f' then
        if listStarts "alse".toList rest then some (.bool false, rest.drop 4) else none
      else if c = 'n' then
        if listStarts "ull".toList rest then some (.null, rest.drop 3) else none
      else parseNumberFrom (c :: rest)

/-- An object body after the opening brace: empty object or members. -/
def parseObjectBody : Nat → List Char → Option (Json × List Char)
  | 0, _ => none
  | fuel + 1, cs =>
    match skipWs cs with
    | '}' :: rest => some (.obj [], rest)
    | _ => parseMembers fuel cs

/-- One or more `"key": value` members, separated by commas and closed by a
brace. -/
def parseMembers : Nat → List Char → Option (Json × List Char)
  | 0, _ => none
  | fuel + 1, cs =>
    match skipWs cs with
    | '"' :: rest =>
      match parseStringBody rest with
      | none => none
      | some (k, r1) =>
        match skipWs r1 with
        | ':' :: r2 =>
          match parseValue fuel r2 with
          | none => none
          | some (v, r3) =>
            match skipWs r3 with
            | ',' :: r4 =>
              match parseMembers fuel r4 with
              | some (.obj ms, r5) => some (.obj ((⟨k⟩, v) :: ms), r5)
              | _ => none
            | '}' :: r4 => some (.obj [(⟨k⟩, v)], r4)
            | _ => none
        | _ => none
    | _ => none

/-- An array body after the opening bracket: empty array or elements. -/
def parseArrayBody : Nat → List Char → Option (Json × List Char)
  | 0, _ => none
  | fuel + 1, cs =>
    match skipWs cs with
    | ']' :: rest => some (.arr [], rest)
    | _ => parseElems fuel cs

/-- One or more array elements, separated by commas and closed by a
bracket. -/
def parseElems : Nat → List Char → Option (Json × List Char)
  | 0, _ => none
  | fuel + 1, cs =>
    match parseValue fuel cs with
    | none => none
    | some (v, r1) =>
      match skipWs r1 with
      | ',' :: r2 =>
        match parseElems fuel r2 with
        | some (.arr vs, r3) => some (.arr (v :: vs), r3)
        | _ => none
      | ']' :: r2 => some (.arr [v], r2)
      | _ => none

end

/-- The zero `scanner.Module`, as `var m Module` before unmarshalling. -/
def zeroModule : Module := .mk ⟨"", "", "", false, false, zeroVuln, zeroVuln⟩ none

def Module.setPath : Module → String → Module
  | .mk d u, s =>
    .mk ⟨s, d.Version, d.Time, d.Indirect, d.FromGoMod, d.VulnCurrent, d.VulnUpdate⟩ u

def Module.setVersion : Module → String → Module
  | .mk d u, s =>
    .mk ⟨d.Path, s, d.Time, d.Indirect, d.FromGoMod, d.VulnCurrent, d.VulnUpdate⟩ u

def Module.setTime : Module → String → Module
  | .mk d u, s =>
    .mk ⟨d.Path, d.Version, s, d.Indirect, d.FromGoMod, d.VulnCurrent, d.VulnUpdate⟩ u

def Module.setIndirect : Module → Bool → Module
  | .mk d u, b =>
    .mk ⟨d.Path, d.Version, d.Time, b, d.FromGoMod, d.VulnCurrent, d.VulnUpdate⟩ u

def Module.setUpdate : Module → Option Module → Module
  | .mk d _, u => .mk d u

mutual

/-- Modelled from the Go standard library: `json.Unmarshal` of a value into
a `Module`.  An object unmarshals member by member; a JSON `null` is the
documented no-op, leaving the record at its zero value; members are applied
left to right, so a repeated key keeps its last occurrence, unknown keys
are ignored, a `null` member leaves the field untouched and a type mismatch
is an error. -/
def moduleFromJson : Nat → Json → Option Module
  | 0, _ => none
  | fuel + 1, .obj ms => applyMembers fuel ms zeroModule
  | _ + 1, .null => some zeroModule
  | _ + 1, _ => none

/-- Apply object members to a partially filled record, left to right. -/
def applyMembers : Nat → List (String × Json) → Module → Option Module
  | 0, _, _ => none
  | _ + 1, [], m => some m
  | fuel + 1, kv :: rest, m =>
    match setModuleField fuel m kv.1 kv.2 with
    | none => none
    | some m2 => applyMembers fuel rest m2

/-- Apply one `key: value` member: the JSON-visible fields of
`scanner.Module` are `Path`, `Version`, `Time`, `Indirect` and the
recursive `Update`; anything else is ignored. -/
def setModuleField : Nat → Module → String → Json → Option Module
  | 0, _, _, _ => none
  | fuel + 1, m, k, v =>
    if k = "Path" then
      match v with
      | .str s => some (m.setPath s)
      | .null => some m
      | _ => none
    else if k = "Version" then
      match v with
      | .str s => some (m.setVersion s)
      | .null => some m
      | _ => none
    else if k = "Time" then
      match v with
      | .str s => some (m.setTime s)
      | .null => some m
      | _ => none
    else if k = "Indirect" then
      match v with
      | .bool b => some (m.setIndirect b)
      | .null => some m
      | _ => none
    else if k = "Update" then
      match v with
      | .null => some m
      | .obj ms =>
        match moduleFromJson fuel (.obj ms) with
        | some um => some (m.setUpdate (some um))
        | none => none
      | _ => none
    else some m

end

/-- One `decoder.Decode(&m)` step: read a JSON value and unmarshal it into
a `Module`. -/
def decodeOneModule (fuel : Nat) (cs : List Char) : Option (Module × List Char) :=
  match parseValue fuel cs with
  | none => none
  | some (j, rest) =>
    match moduleFromJson fuel j with
    | none => none
    | some m => some (m, rest)

/-- `json.Decoder.More`: reports whether there is another value in the
stream — some non-whitespace input remains and its first character is not a
`]` or `}` closing delimiter. -/
def moreValues (cs : List Char) : Bool :=
  match skipWs cs with
  | [] => false
  | c :: _ => !(c = ']' || c = '}')

/-- The decode loop of `DecodeGoListModules`: while `decoder.More()`,
decode one value and append it; when `More` reports false the loop exits
and the records accumulated so far are returned with no error.  The loop
fuel exceeds any possible number of iterations, since every decoded value
consumes at least one character. -/
def decodeLoop (pfuel : Nat) : Nat → List Char → Except String (List Module)
  | 0, _ => .error "failed to decode json"
  | lf + 1, cs =>
    if moreValues cs then
      match decodeOneModule pfuel cs with
      | none => .error "failed to decode json"
      | some (m, rest) =>
        match decodeLoop pfuel lf rest with
        | .ok ms => .ok (m :: ms)
        | .error e => .error e
    else .ok []

/-- Embedding of `scanner.DecodeGoListModules`: decode the stream of
concatenated JSON objects that `go list -m -u -json all` emits. -/
def DecodeGoListModules (data : String) : Except String (List Module) :=
  decodeLoop (data.toList.length + 1) (data.toList.length + 1) data.toList

/-- Is a JSON value a number lexeme?  Only number lexemes make the parser
read to the very end of the input without a closing delimiter. -/
def Json.isNum : Json → Bool
  | .num _ => true
  | _ => false

end scanner

namespace scanner

/-- Concatenation of string pieces into one character buffer. -/
def concatChars (l : List String) : List Char :=
  l.foldr (fun s acc => s.toList ++ acc) []

/-- One manifest of validity for an object of the report stream: decoded by
one `Decode` step, as one `Module`, consuming the whole piece. -/
def DecodesToModule (s : String) (m : Module) : Prop :=
  decodeOneModule (s.toList.length + 1) s.toList = some (m, [])

/-- First record of the C3 witness. -/
def c3ModA : Module := Module.mk ⟨"a", "", "", false, false, zeroVuln, zeroVuln⟩ none

/-- Second record of the C3 witness. -/
def c3ModB : Module := Module.mk ⟨"b", "", "", false, false, zeroVuln, zeroVuln⟩ none

end scanner

namespace gomod

open strutil

/-- Trim the part before a `//` comment, as `parseRequireLine` does before
splitting fields.  Kept separate so that `lineEntry` matches the source
shape: fields of the trimmed body.  Trimming before `strings.Fields` does
not change the fields, so `lineEntry` applies `fieldsOf` directly. -/
theorem lineEntry_def (line : List Char) :
    lineEntry line =
      match fieldsOf (lineEntry.findCommentSplit line).1 with
      | p :: _ :: _ =>
        some (⟨p⟩, listHas (lineEntry.findCommentSplit line).2 "indirect".toList)
      | _ => none := rfl

theorem requireScan_eq_fold (ls : List (List Char)) :
    ∀ idx inBlock, requireScan idx inBlock ls =
      ((entryLinesScan inBlock ls).filterMap lineEntry).foldl
        (fun d e => recordEntry d e.1 e.2) idx := by
  induction ls with
  | nil => intro idx inBlock; rfl
  | cons l rest ih =>
    intro idx inBlock
    simp only [requireScan, entryLinesScan]
    split
    · exact ih idx inBlock
    · split
      · exact ih idx true
      · split
        · exact ih idx false
        · split
          · rw [List.filterMap_cons]
            unfold parseRequireLine
            cases he : lineEntry (trimChars (List.drop 8 (trimChars l))) with
            | none => simp only [he]; exact ih idx inBlock
            | some pb => simp only [he, List.foldl_cons]; exact ih _ inBlock
          · split
            · rw [List.filterMap_cons]
              unfold parseRequireLine
              cases he : lineEntry (trimChars l) with
              | none => simp only [he]; exact ih idx inBlock
              | some pb => simp only [he, List.foldl_cons]; exact ih _ inBlock
            · exact ih idx inBlock

theorem foldl_recordEntry_stays_direct (es : List (String × Bool)) :
    ∀ idx : RequireIndex, ∀ p : String, idx p = some false →
      (es.foldl (fun d e => recordEntry d e.1 e.2) idx) p = some false := by
  induction es with
  | nil => intro idx p h; exact h
  | cons e rest ih =>
    intro idx p h
    rw [List.foldl_cons]
    apply ih
    unfold recordEntry
    by_cases hq : p = e.1
    · simp only [if_pos hq]
      rw [hq] at h
      simp [h]
    · simp only [if_neg hq]
      exact h

theorem foldl_recordEntry_direct_wins (es : List (String × Bool)) :
    ∀ idx : RequireIndex, ∀ p : String, (p, false) ∈ es →
      (es.foldl (fun d e => recordEntry d e.1 e.2) idx) p = some false := by
  induction es with
  | nil => intro idx p h; exact absurd h (List.not_mem_nil _)
  | cons e rest ih =>
    intro idx p h
    rw [List.foldl_cons]
    rcases List.mem_cons.mp h with he | hrest
    · apply foldl_recordEntry_stays_direct
      rw [← he]
      unfold recordEntry
      simp only [if_pos rfl]
      cases idx p with
      | none => rfl
      | some existing => cases existing <;> rfl
    · exact ih _ p hrest

/-- C1: an identifier declared on more than one entry line, at least one of
them without an `indirect` trailing-comment token, is mapped to direct
(`some false`) by `ParseRequireIndex`, whatever the order of the
declarations: a later `indirect` sighting never downgrades a direct one. -/
theorem parseRequireIndex_direct_wins (goModContents : String) (p : String)
    (hdup : 2 ≤ (manifestEntries goModContents).countP (fun e => e.1 = p))
    (hdir : (p, false) ∈ manifestEntries goModContents) :
    ParseRequireIndex goModContents p = some false := by
  have _ := hdup
  unfold ParseRequireIndex
  rw [requireScan_eq_fold]
  exact foldl_recordEntry_direct_wins _ _ _ hdir

/-- Witness for C1 on a concrete manifest: `a` is declared indirect first
and direct second, and ends up direct. -/
theorem parseRequireIndex_direct_wins_witness :
    ParseRequireIndex
      "require (\nexample.com/a v1.0.0 // indirect\nexample.com/a v1.2.0\n)"
      "example.com/a" = some false :=
  parseRequireIndex_direct_wins
    "require (\nexample.com/a v1.0.0 // indirect\nexample.com/a v1.2.0\n)"
    "example.com/a" (by decide) (by decide)

end gomod

namespace cooldown

open strutil

theorem parseRFC3339Core_empty : parseRFC3339Core "" = none := rfl

theorem ageCheck_eq_max (minDays now t : Int) :
    ageCheck minDays now t = decide (minDays * 86400000000000 ≤ max (now - t) 0) := by
  unfold ageCheck
  rcases lt_or_le (now - t) 0 with h | h
  · simp only [if_pos h]
    rw [max_eq_right (le_of_lt h)]
  · simp only [if_neg (not_lt.mpr h)]
    rw [max_eq_left h]

/-- C2: the cooldown evaluator is total over timestamp strings: a
non-positive `minDays` always yields `true`; with a positive `minDays` a
timestamp that parses under neither RFC-3339 layout (the empty string
included) yields `false`; and a timestamp that parses to `t` yields `true`
exactly when the age `now - t`, clamped at zero, reaches `minDays` days,
boundary included. -/
theorem eligible_spec (s : String) (minDays now : Int) :
    (minDays ≤ 0 → Eligible s minDays now = true) ∧
    (0 < minDays → parseRFC3339Nano s = none → parseRFC3339 s = none →
      Eligible s minDays now = false) ∧
    (0 < minDays → ∀ t, parseRFC3339Nano s = some t →
      Eligible s minDays now = decide (minDays * 86400000000000 ≤ max (now - t) 0)) ∧
    (0 < minDays → parseRFC3339Nano s = none → ∀ t, parseRFC3339 s = some t →
      Eligible s minDays now = decide (minDays * 86400000000000 ≤ max (now - t) 0)) := by
  refine ⟨?_, ?_, ?_, ?_⟩
  · intro h
    unfold Eligible
    rw [if_pos h]
  · intro h hn hr
    unfold Eligible
    rw [if_neg (not_le.mpr h)]
    by_cases he : s = ""
    · rw [if_pos he]
    · rw [if_neg he, hn, hr]
  · intro h t ht
    unfold Eligible
    rw [if_neg (not_le.mpr h)]
    by_cases he : s = ""
    · rw [he] at ht
      exact absurd ht (by rw [show parseRFC3339Nano "" = none from rfl]; simp)
    · rw [if_neg he, ht]
      exact ageCheck_eq_max minDays now t
  · intro h hn t ht
    unfold Eligible
    rw [if_neg (not_le.mpr h)]
    by_cases he : s = ""
    · rw [he] at ht
      exact absurd ht (by rw [show parseRFC3339 "" = none from rfl]; simp)
    · rw [if_neg he, hn, ht]
      exact ageCheck_eq_max minDays now t

/-- Witness for C2: thirty days before `2026-01-17T00:00:00Z`, a cooldown of
thirty days is met exactly at the boundary, which is inclusive. -/
theorem eligible_spec_witness :
    Eligible "2025-12-18T00:00:00Z" 30 1768608000000000000 = true := by
  have h := (eligible_spec "2025-12-18T00:00:00Z" 30 1768608000000000000).2.2.1
    (by decide) 1766016000000000000 (by decide)
  rw [h]
  decide

end cooldown

namespace style

open strutil

/-- C6: a version string carrying the pseudo/development-build marker (two
or more hyphen-separated suffix segments) on either side forces the
`Unknown` classification, numeric content and even equality of the two
strings notwithstanding. -/
theorem getDiffType_pseudo_unknown (v1 v2 : String)
    (h : 2 ≤ v1.toList.count '-' ∨ 2 ≤ v2.toList.count '-') :
    GetDiffType v1 v2 = DiffType.DiffUnknown := by
  have hp : (isPseudoVersion v1 || isPseudoVersion v2) = true := by
    rcases h with h | h
    · have : isPseudoVersion v1 = true := decide_eq_true h
      simp [this]
    · have : isPseudoVersion v2 = true := decide_eq_true h
      simp [this]
  unfold GetDiffType
  rw [if_pos hp]

/-- Witness for C6: one and the same pseudo-version on both sides is
classified `Unknown`, not `Same`. -/
theorem getDiffType_pseudo_unknown_witness :
    GetDiffType "v1.2.3-20240101000000-abcdef123456"
      "v1.2.3-20240101000000-abcdef123456" = DiffType.DiffUnknown :=
  getDiffType_pseudo_unknown _ _ (Or.inl (by decide))

/-- C10: `GetDiffType` is symmetric: the classification depends only on the
magnitude of the delta, not on its direction. -/
theorem getDiffType_symm (v1 v2 : String) :
    GetDiffType v1 v2 = GetDiffType v2 v1 := by
  unfold GetDiffType
  rw [Bool.or_comm (isPseudoVersion v1) (isPseudoVersion v2)]
  by_cases hps : (isPseudoVersion v2 || isPseudoVersion v1) = true
  · rw [if_pos hps, if_pos hps]
  · rw [if_neg hps, if_neg hps]
    by_cases he : v1 = v2
    · rw [if_pos he, if_pos he.symm]
    · rw [if_neg he, if_neg (fun h => he h.symm)]
      cases hp1 : parseSemverCore v1 with
      | none =>
        cases hp2 : parseSemverCore v2 with
        | none => rfl
        | some t2 => rfl
      | some t1 =>
        cases hp2 : parseSemverCore v2 with
        | none => rfl
        | some t2 =>
          obtain ⟨a1, b1, c1⟩ := t1
          obtain ⟨a2, b2, c2⟩ := t2
          show (if a1 ≠ a2 then DiffType.DiffMajor
              else if b1 ≠ b2 then DiffType.DiffMinor
              else if c1 ≠ c2 then DiffType.DiffPatch else DiffType.DiffSame) =
            (if a2 ≠ a1 then DiffType.DiffMajor
              else if b2 ≠ b1 then DiffType.DiffMinor
              else if c2 ≠ c1 then DiffType.DiffPatch else DiffType.DiffSame)
          by_cases ha : a1 = a2
          · rw [if_neg (not_not_intro ha), if_neg (not_not_intro ha.symm)]
            by_cases hb : b1 = b2
            · rw [if_neg (not_not_intro hb), if_neg (not_not_intro hb.symm)]
              by_cases hc : c1 = c2
              · rw [if_neg (not_not_intro hc), if_neg (not_not_intro hc.symm)]
              · rw [if_pos hc, if_pos (fun h => hc h.symm)]
            · rw [if_pos hb, if_pos (fun h => hb h.symm)]
          · rw [if_pos ha, if_pos (fun h => ha h.symm)]

end style

namespace format

open strutil scanner style

/-- C5 as stated fails: a record whose delta is Minor and whose version
strings both begin with the pre-1.0 prefix `0.` is NOT reclassified: the
code tests for the prefix `v0.` literally, so `0.1.0 -> 0.2.0` keeps label
`Minor` and sort key 1, not `Major (v0)` and 0. -/
theorem groupLabel_v0_claim_counterexample :
    v0ClaimCex.Update = some v0ClaimCexUpd
    ∧ GetDiffType v0ClaimCex.Version v0ClaimCexUpd.Version = DiffType.DiffMinor
    ∧ listStarts "0.".toList v0ClaimCex.Version.toList = true
    ∧ listStarts "0.".toList v0ClaimCexUpd.Version.toList = true
    ∧ GroupLabel v0ClaimCex = "Minor"
    ∧ GroupSortKey v0ClaimCex = 1 :=
  ⟨rfl, by decide, by decide, by decide, by decide, by decide⟩

/-- C5 (amended: the tested prefix is `v0.`, the literal prefix of the
version strings): a record with an update whose delta is classified Minor
and whose current and update version strings both begin with `v0.` is
reclassified as Major: label `Major (v0)`, sort key 0. -/
theorem groupLabel_v0_major (m u : Module) (hu : m.Update = some u)
    (hminor : GetDiffType m.Version u.Version = DiffType.DiffMinor)
    (h1 : listStarts "v0.".toList m.Version.toList = true)
    (h2 : listStarts "v0.".toList u.Version.toList = true) :
    GroupLabel m = "Major (v0)" ∧ GroupSortKey m = 0 := by
  constructor
  · unfold GroupLabel
    rw [hu]
    simp only [hminor, h1, h2]
    decide
  · unfold GroupSortKey GroupForModule
    rw [hu]
    simp only [hminor, h1, h2]
    decide

/-- Witness for the amended C5: `v0.1.0 -> v0.2.0` is labelled
`Major (v0)` with sort key 0. -/
theorem groupLabel_v0_major_witness :
    GroupLabel v0Witness = "Major (v0)" ∧ GroupSortKey v0Witness = 0 :=
  groupLabel_v0_major v0Witness v0WitnessUpd rfl (by decide) (by decide) (by decide)

/-- C9: `GroupSortKey` and `GroupLabel`, though they recompute the
classification independently, agree on every record: key 0 exactly for the
labels `Major` and `Major (v0)`, key 1 for `Minor`, key 2 for `Patch` and
key 3 for `Unknown`. -/
theorem groupSortKey_groupLabel_consistent (m : Module) :
    (GroupSortKey m = 0 ↔ (GroupLabel m = "Major" ∨ GroupLabel m = "Major (v0)"))
    ∧ (GroupSortKey m = 1 ↔ GroupLabel m = "Minor")
    ∧ (GroupSortKey m = 2 ↔ GroupLabel m = "Patch")
    ∧ (GroupSortKey m = 3 ↔ GroupLabel m = "Unknown") := by
  unfold GroupSortKey GroupForModule GroupLabel
  cases hU : m.Update with
  | none => simp
  | some u =>
    cases hd : GetDiffType m.Version u.Version with
    | DiffMajor => simp [hd]
    | DiffMinor =>
      simp only [hd]
      by_cases hv : (listStarts "v0.".toList m.Version.toList
          && listStarts "v0.".toList u.Version.toList) = true
      · rw [if_pos hv, if_pos hv]
        simp
      · rw [if_neg hv, if_neg hv]
        simp
    | DiffPatch => simp [hd]
    | DiffSame => simp [hd]
    | DiffUnknown => simp [hd]

end format

namespace scanner

open strutil

theorem annotateModule_Path (idx : gomod.RequireIndex) (m : Module) :
    (annotateModule idx m).Path = m.Path := by
  unfold annotateModule
  cases h : idx m.Path with
  | none => rfl
  | some b => cases m; rfl

theorem annotateModule_Update (idx : gomod.RequireIndex) (m : Module) :
    (annotateModule idx m).Update = m.Update := by
  unfold annotateModule
  cases h : idx m.Path with
  | none => rfl
  | some b => cases m; rfl

theorem annotateModule_of_none (idx : gomod.RequireIndex) (m : Module)
    (h : idx m.Path = none) : annotateModule idx m = m := by
  unfold annotateModule
  rw [h]

theorem annotateModule_flags (idx : gomod.RequireIndex) (m : Module) (b : Bool)
    (h : idx m.Path = some b) :
    (annotateModule idx m).FromGoMod = true ∧ (annotateModule idx m).Indirect = b := by
  unfold annotateModule
  rw [h]
  cases m
  exact ⟨rfl, rfl⟩

end scanner

namespace scanner

theorem annotateAndFilter_sublist_annotated (ms : List Module)
    (idx : gomod.RequireIndex) (opts : Options) (now : Int) :
    List.Sublist (AnnotateAndFilter ms idx opts now) (ms.map (annotateModule idx)) := by
  induction ms with
  | nil => simp [AnnotateAndFilter]
  | cons m rest ih =>
    simp only [AnnotateAndFilter, List.map_cons]
    split
    · exact ih.cons _
    · split_ifs with h1 h2 h3
      · exact ih.cons _
      · exact ih.cons _
      · exact ih.cons _
      · exact ih.cons₂ _

theorem annotateAndFilter_update_isSome (ms : List Module)
    (idx : gomod.RequireIndex) (opts : Options) (now : Int) :
    ∀ m ∈ AnnotateAndFilter ms idx opts now, m.Update.isSome = true := by
  induction ms with
  | nil => intro m hm; simp [AnnotateAndFilter] at hm
  | cons m rest ih =>
    intro x hx
    simp only [AnnotateAndFilter] at hx
    split at hx
    · exact ih x hx
    · rename_i u hu
      split_ifs at hx with h1 h2 h3
      · exact ih x hx
      · exact ih x hx
      · exact ih x hx
      · rcases List.mem_cons.mp hx with rfl | hx'
        · rw [annotateModule_Update, hu]
          rfl
        · exact ih x hx'

/-- C8: the output of `AnnotateAndFilter` is a subsequence of the input:
the survivors are the input records (with only their manifest
classification flags rewritten by the index), in the input's relative
order, and every survivor carries an update record. -/
theorem annotateAndFilter_subsequence (ms : List Module)
    (idx : gomod.RequireIndex) (opts : Options) (now : Int) :
    List.Sublist (AnnotateAndFilter ms idx opts now) (ms.map (annotateModule idx))
    ∧ List.Sublist ((AnnotateAndFilter ms idx opts now).map Module.Path)
        (ms.map Module.Path)
    ∧ ∀ m ∈ AnnotateAndFilter ms idx opts now, m.Update.isSome = true := by
  refine ⟨annotateAndFilter_sublist_annotated ms idx opts now, ?_,
    annotateAndFilter_update_isSome ms idx opts now⟩
  have h := (annotateAndFilter_sublist_annotated ms idx opts now).map Module.Path
  rw [List.map_map] at h
  have he : ms.map (Module.Path ∘ annotateModule idx) = ms.map Module.Path := by
    apply List.map_congr_left
    intro m _
    exact annotateModule_Path idx m
  rw [he] at h
  exact h

theorem annotateAndFilter_declared_only (ms : List Module)
    (idx : gomod.RequireIndex) (opts : Options) (now : Int)
    (hIA : opts.IncludeAll = false)
    (hdec : ∀ m ∈ ms, m.FromGoMod = false) :
    ∀ x ∈ AnnotateAndFilter ms idx opts now, idx x.Path ≠ none := by
  induction ms with
  | nil => intro x hx; simp [AnnotateAndFilter] at hx
  | cons m rest ih =>
    intro x hx
    simp only [AnnotateAndFilter] at hx
    split at hx
    · exact ih (fun y hy => hdec y (List.mem_cons_of_mem _ hy)) x hx
    · rename_i u hu
      split_ifs at hx with h1 h2 h3
      · exact ih (fun y hy => hdec y (List.mem_cons_of_mem _ hy)) x hx
      · exact ih (fun y hy => hdec y (List.mem_cons_of_mem _ hy)) x hx
      · exact ih (fun y hy => hdec y (List.mem_cons_of_mem _ hy)) x hx
      · rcases List.mem_cons.mp hx with rfl | hx'
        · intro hnone
          rw [annotateModule_Path] at hnone
          rw [annotateModule_of_none idx m hnone, hIA,
            hdec m (List.mem_cons_self m rest)] at h1
          exact h1 rfl
        · exact ih (fun y hy => hdec y (List.mem_cons_of_mem _ hy)) x hx'

theorem annotateAndFilter_includeAll_keeps (ms : List Module)
    (idx : gomod.RequireIndex) (opts : Options) (now : Int)
    (hIA : opts.IncludeAll = true) :
    ∀ m ∈ ms, idx m.Path = none → ∀ u, m.Update = some u →
      nameFilterKeeps opts m.Path = true → cooldownKeeps opts now u.Time = true →
      m ∈ AnnotateAndFilter ms idx opts now := by
  induction ms with
  | nil => intro m hm; simp at hm
  | cons m0 rest ih =>
    intro m hm hnone u hu hnf hcd
    rcases List.mem_cons.mp hm with rfl | hm'
    · simp only [AnnotateAndFilter, hu]
      simp [annotateModule_of_none idx m hnone, hIA, hnf, hcd]
    · have htail := ih m hm' hnone u hu hnf hcd
      simp only [AnnotateAndFilter]
      split
      · exact htail
      · split_ifs with h1 h2 h3
        · exact htail
        · exact htail
        · exact htail
        · exact List.mem_cons_of_mem _ htail

theorem annotateAndFilter_overrides (ms : List Module)
    (idx : gomod.RequireIndex) (opts : Options) (now : Int) :
    ∀ x ∈ AnnotateAndFilter ms idx opts now, ∀ b, idx x.Path = some b →
      x.FromGoMod = true ∧ x.Indirect = b := by
  induction ms with
  | nil => intro x hx; simp [AnnotateAndFilter] at hx
  | cons m rest ih =>
    intro x hx
    simp only [AnnotateAndFilter] at hx
    split at hx
    · exact ih x hx
    · rename_i u hu
      split_ifs at hx with h1 h2 h3
      · exact ih x hx
      · exact ih x hx
      · exact ih x hx
      · rcases List.mem_cons.mp hx with rfl | hx'
        · intro b hb
          rw [annotateModule_Path] at hb
          exact annotateModule_flags idx m b hb
        · exact ih x hx'

/-- C4: over a decoded record sequence (no record pre-marked as manifest
declared), `AnnotateAndFilter` with `includeAll = false` only ever emits
records whose identifier is in the manifest index; with
`includeAll = true` a record absent from the index survives whenever the
remaining stages (update present, name filter, cooldown) pass; and every
surviving record whose identifier is in the index is marked explicitly
declared with its indirect flag overwritten by the index value. -/
theorem annotateAndFilter_includeAll_spec (ms : List Module)
    (idx : gomod.RequireIndex) (opts : Options) (now : Int)
    (hdecoded : ∀ m ∈ ms, m.FromGoMod = false) :
    (opts.IncludeAll = false →
      ∀ x ∈ AnnotateAndFilter ms idx opts now, idx x.Path ≠ none)
    ∧ (opts.IncludeAll = true →
      ∀ m ∈ ms, idx m.Path = none → ∀ u, m.Update = some u →
        nameFilterKeeps opts m.Path = true → cooldownKeeps opts now u.Time = true →
        m ∈ AnnotateAndFilter ms idx opts now)
    ∧ (∀ x ∈ AnnotateAndFilter ms idx opts now, ∀ b, idx x.Path = some b →
        x.FromGoMod = true ∧ x.Indirect = b) :=
  ⟨fun hIA => annotateAndFilter_declared_only ms idx opts now hIA hdecoded,
   fun hIA => annotateAndFilter_includeAll_keeps ms idx opts now hIA,
   annotateAndFilter_overrides ms idx opts now⟩

end scanner

namespace scanner

open strutil

/-- Witness for C4: with `includeAll = true`, the undeclared record `c`
survives `AnnotateAndFilter` because the remaining stages pass. -/
theorem annotateAndFilter_includeAll_witness :
    c4ModC ∈ AnnotateAndFilter [c4ModA, c4ModB, c4ModC] c4Idx c4Opts 0 := by
  have h := (annotateAndFilter_includeAll_spec [c4ModA, c4ModB, c4ModC] c4Idx c4Opts 0
    (by intro m hm; rcases List.mem_cons.mp hm with rfl | hm; · rfl
        rcases List.mem_cons.mp hm with rfl | hm; · rfl
        rcases List.mem_cons.mp hm with rfl | hm; · rfl
        simp at hm)).2.1
  exact h rfl c4ModC (by simp) (by decide) c4UpdC rfl (by decide) (by decide)

theorem nameFilterKeeps_iff (opts : Options) (path : String)
    (hne : opts.Filter ≠ "") :
    nameFilterKeeps opts path = true ↔
      (listHas path.toList opts.Filter.toList = true
        ∨ regexMatches opts path = true) := by
  unfold nameFilterKeeps regexMatches
  rw [if_neg hne]
  by_cases h : listHas path.toList opts.Filter.toList = true
  · rw [if_pos h]
    exact ⟨fun _ => Or.inl h, fun _ => rfl⟩
  · rw [if_neg h]
    cases hre : opts.FilterRegex with
    | none =>
      exact ⟨fun hfalse => absurd hfalse Bool.false_ne_true,
        fun hor => hor.elim (fun hl => absurd hl h) (fun hr => hr)⟩
    | some re =>
      exact ⟨fun hm => Or.inr hm,
        fun hor => hor.elim (fun hl => absurd hl h) (fun hr => hr)⟩

theorem annotateAndFilter_keeps (ms : List Module)
    (idx : gomod.RequireIndex) (opts : Options) (now : Int) :
    ∀ m ∈ ms, ∀ u, m.Update = some u →
      (!opts.IncludeAll && !(annotateModule idx m).FromGoMod) = false →
      nameFilterKeeps opts (annotateModule idx m).Path = true →
      cooldownKeeps opts now u.Time = true →
      annotateModule idx m ∈ AnnotateAndFilter ms idx opts now := by
  induction ms with
  | nil => intro m hm; simp at hm
  | cons m0 rest ih =>
    intro m hm u hu h1 hnf hcd
    rcases List.mem_cons.mp hm with rfl | hm'
    · simp only [AnnotateAndFilter, hu]
      simp [h1, hnf, hcd]
    · have htail := ih m hm' u hu h1 hnf hcd
      simp only [AnnotateAndFilter]
      split
      · exact htail
      · split_ifs with g1 g2 g3
        · exact htail
        · exact htail
        · exact htail
        · exact List.mem_cons_of_mem _ htail

theorem annotateAndFilter_survivor_filter (ms : List Module)
    (idx : gomod.RequireIndex) (opts : Options) (now : Int) :
    ∀ x ∈ AnnotateAndFilter ms idx opts now, nameFilterKeeps opts x.Path = true := by
  induction ms with
  | nil => intro x hx; simp [AnnotateAndFilter] at hx
  | cons m rest ih =>
    intro x hx
    simp only [AnnotateAndFilter] at hx
    split at hx
    · exact ih x hx
    · rename_i u hu
      split_ifs at hx with h1 h2 h3
      · exact ih x hx
      · exact ih x hx
      · exact ih x hx
      · rcases List.mem_cons.mp hx with rfl | hx'
        · cases hb : nameFilterKeeps opts (annotateModule idx m).Path with
          | false => exact absurd (by rw [hb]; rfl) h2
          | true => rfl
        · exact ih x hx'

/-- C7: when a non-empty name filter is configured, a record is kept by the
name-filter stage exactly when its identifier contains the filter string as
a substring or, failing that, the compiled regular expression matches it:
a record passing the other stages and one of the two tests survives, and
every survivor passes one of the two tests. -/
theorem annotateAndFilter_nameFilter_spec (ms : List Module)
    (idx : gomod.RequireIndex) (opts : Options) (now : Int) :
    (∀ m ∈ ms, ∀ u, m.Update = some u →
        (!opts.IncludeAll && !(annotateModule idx m).FromGoMod) = false →
        cooldownKeeps opts now u.Time = true →
        (listHas m.Path.toList opts.Filter.toList = true
          ∨ regexMatches opts m.Path = true) →
        annotateModule idx m ∈ AnnotateAndFilter ms idx opts now)
    ∧ (opts.Filter ≠ "" → ∀ x ∈ AnnotateAndFilter ms idx opts now,
        listHas x.Path.toList opts.Filter.toList = true
          ∨ regexMatches opts x.Path = true) := by
  constructor
  · intro m hm u hu h1 hcd hmatch
    have hnf : nameFilterKeeps opts (annotateModule idx m).Path = true := by
      rw [annotateModule_Path]
      by_cases hf : opts.Filter = ""
      · unfold nameFilterKeeps
        rw [if_pos hf]
      · exact (nameFilterKeeps_iff opts m.Path hf).mpr hmatch
    exact annotateAndFilter_keeps ms idx opts now m hm u hu h1 hnf hcd
  · intro hne x hx
    exact (nameFilterKeeps_iff opts x.Path hne).mp
      (annotateAndFilter_survivor_filter ms idx opts now x hx)

/-- Witness for C7: with filter `tr`, the record named `trans` survives on
the substring test. -/
theorem annotateAndFilter_nameFilter_witness :
    annotateModule gomod.emptyIndex c7Trans ∈
      AnnotateAndFilter [c7Direct, c7Trans] gomod.emptyIndex c7Opts 0 :=
  (annotateAndFilter_nameFilter_spec [c7Direct, c7Trans] gomod.emptyIndex c7Opts 0).1
    c7Trans (by simp) c7UpdTrans rfl (by decide) (by decide) (Or.inl (by decide))

theorem skipWs_cons_append (cs ext : List Char) (c : Char) (r : List Char)
    (h : skipWs cs = c :: r) : skipWs (cs ++ ext) = c :: (r ++ ext) := by
  induction cs with
  | nil => simp [skipWs] at h
  | cons a l ih =>
    unfold skipWs at h ⊢
    rw [List.cons_append, List.dropWhile_cons]
    rw [List.dropWhile_cons] at h
    by_cases ha : jsonWs a = true
    · rw [if_pos ha] at h ⊢
      exact ih h
    · rw [if_neg ha] at h ⊢
      rw [List.cons.injEq] at h
      rw [List.cons.injEq]
      exact ⟨h.1, by rw [← h.2]⟩

theorem skipWs_ne_nil_of_cons (cs : List Char) (c : Char) (r : List Char)
    (h : skipWs cs = c :: r) : cs ≠ [] := by
  intro he
  rw [he] at h
  simp [skipWs] at h

theorem dropWhile_stop_append (p : Char → Bool) (cs ext : List Char)
    (h : cs.dropWhile p ≠ []) :
    (cs ++ ext).takeWhile p = cs.takeWhile p
    ∧ (cs ++ ext).dropWhile p = cs.dropWhile p ++ ext := by
  induction cs with
  | nil => simp at h
  | cons a l ih =>
    rw [List.dropWhile_cons] at h
    by_cases ha : p a = true
    · rw [if_pos ha] at h
      constructor
      · rw [List.cons_append, List.takeWhile_cons, List.takeWhile_cons,
          if_pos ha, if_pos ha, (ih h).1]
      · rw [List.cons_append, List.dropWhile_cons, List.dropWhile_cons,
          if_pos ha, if_pos ha, (ih h).2]
    · constructor
      · rw [List.cons_append, List.takeWhile_cons, List.takeWhile_cons,
          if_neg ha, if_neg ha]
      · rw [List.cons_append, List.dropWhile_cons, List.dropWhile_cons,
          if_neg ha, if_neg ha, List.cons_append]

theorem listStarts_append (pat : List Char) :
    ∀ cs ext : List Char, listStarts pat cs = true →
      listStarts pat (cs ++ ext) = true
      ∧ (cs ++ ext).drop pat.length = cs.drop pat.length ++ ext := by
  induction pat with
  | nil =>
    intro cs ext _
    exact ⟨rfl, rfl⟩
  | cons p ps ih =>
    intro cs ext h
    cases cs with
    | nil => simp [listStarts] at h
    | cons c l =>
      unfold listStarts at h
      rw [Bool.and_eq_true] at h
      rw [List.cons_append, List.length_cons, List.drop_succ_cons, List.drop_succ_cons]
      refine ⟨?_, (ih l ext h.2).2⟩
      unfold listStarts
      rw [Bool.and_eq_true]
      exact ⟨h.1, (ih l ext h.2).1⟩

theorem parseNumberFrom_eq_of_takeWhile (cs : List Char) (d : Char) (ds : List Char)
    (ht : cs.takeWhile numChar = d :: ds) :
    parseNumberFrom cs =
      if validNumber (d :: ds) = true
      then some (.num ⟨d :: ds⟩, cs.dropWhile numChar) else none := by
  unfold parseNumberFrom
  rw [ht]

theorem parseNumberFrom_append (cs : List Char) (v : Json) (r ext : List Char)
    (h : parseNumberFrom cs = some (v, r)) (hr : r ≠ []) :
    parseNumberFrom (cs ++ ext) = some (v, r ++ ext) := by
  cases ht : cs.takeWhile numChar with
  | nil =>
    rw [parseNumberFrom.eq_def, ht] at h
    exact absurd h (by simp)
  | cons d ds =>
    rw [parseNumberFrom_eq_of_takeWhile cs d ds ht] at h
    by_cases hvn : validNumber (d :: ds) = true
    · rw [if_pos hvn] at h
      have hdrop : cs.dropWhile numChar ≠ [] := by
        intro hd
        rw [hd] at h
        rw [Option.some.injEq, Prod.mk.injEq] at h
        exact hr h.2.symm
      obtain ⟨htw, hdw⟩ := dropWhile_stop_append numChar cs ext hdrop
      rw [parseNumberFrom_eq_of_takeWhile (cs ++ ext) d ds (by rw [htw, ht]),
        if_pos hvn, hdw]
      rw [Option.some.injEq, Prod.mk.injEq] at h
      rw [Option.some.injEq, Prod.mk.injEq]
      exact ⟨h.1, by rw [← h.2]⟩
    · rw [if_neg hvn] at h
      exact Option.noConfusion h

theorem parseStringBody_quote (l : List Char) :
    parseStringBody ('"' :: l) = some ([], l) := by
  rw [parseStringBody.eq_def]
  simp

theorem parseStringBody_plain (c : Char) (l : List Char)
    (hq : ¬c = '"') (hb : ¬c = '\\') (hctrl : ¬c.toNat < 32) :
    parseStringBody (c :: l) = (parseStringBody l).map (fun sr => (c :: sr.1, sr.2)) := by
  rw [parseStringBody.eq_def]
  simp only [if_neg hq, if_neg hb, if_neg hctrl]

theorem parseStringBody_ctrl (c : Char) (l : List Char)
    (hq : ¬c = '"') (hb : ¬c = '\\') (hctrl : c.toNat < 32) :
    parseStringBody (c :: l) = none := by
  rw [parseStringBody.eq_def]
  simp only [if_neg hq, if_neg hb, if_pos hctrl]

theorem parseStringBody_esc (c : Char) (l : List Char) (ec : Char)
    (hcu : ¬c = 'u') (hesc : escChar c = some ec) :
    parseStringBody ('\\' :: c :: l)
      = (parseStringBody l).map (fun sr => (ec :: sr.1, sr.2)) := by
  rw [parseStringBody.eq_def]
  simp only [if_neg hcu, hesc]
  simp

theorem parseStringBody_escNone (c : Char) (l : List Char)
    (hcu : ¬c = 'u') (hesc : escChar c = none) :
    parseStringBody ('\\' :: c :: l) = none := by
  rw [parseStringBody.eq_def]
  simp only [if_neg hcu, hesc]
  simp

theorem parseStringBody_uEsc (a b c d : Char) (rest : List Char) (n : Nat)
    (hsome : hex4 a b c d = some n) :
    parseStringBody ('\\' :: 'u' :: a :: b :: c :: d :: rest)
      = (parseStringBody rest).map (fun sr => (Char.ofNat n :: sr.1, sr.2)) := by
  rw [parseStringBody.eq_def]
  simp only [hsome]
  simp

theorem parseStringBody_uEscNone (a b c d : Char) (rest : List Char)
    (hnone : hex4 a b c d = none) :
    parseStringBody ('\\' :: 'u' :: a :: b :: c :: d :: rest) = none := by
  rw [parseStringBody.eq_def]
  simp only [hnone]
  simp

theorem parseStringBody_append (cs : List Char) :
    ∀ s r ext : List Char, parseStringBody cs = some (s, r) →
      parseStringBody (cs ++ ext) = some (s, r ++ ext) := by
  induction cs using parseStringBody.induct with
  | case1 =>
    intro s r ext h
    simp [parseStringBody] at h
  | case2 rest =>
    intro s r ext h
    rw [parseStringBody_quote] at h
    rw [Option.some.injEq, Prod.mk.injEq] at h
    show parseStringBody ('"' :: (rest ++ ext)) = some (s, r ++ ext)
    rw [parseStringBody_quote, Option.some.injEq, Prod.mk.injEq]
    exact ⟨h.1, by rw [← h.2]⟩
  | case3 hne =>
    intro s r ext h
    have h0 : parseStringBody ['\\'] = none := rfl
    rw [h0] at h
    exact absurd h (by simp)
  | case4 a b c d rest v hsome hne ih =>
    intro s r ext h
    rw [parseStringBody_uEsc a b c d rest v hsome] at h
    show parseStringBody ('\\' :: 'u' :: a :: b :: c :: d :: (rest ++ ext))
      = some (s, r ++ ext)
    rw [parseStringBody_uEsc a b c d (rest ++ ext) v hsome]
    cases hps : parseStringBody rest with
    | none => rw [hps] at h; simp at h
    | some sr =>
      rw [hps] at h
      rw [ih sr.1 sr.2 ext (by rw [hps])]
      simp only [Option.map_some'] at h ⊢
      rw [Option.some.injEq, Prod.mk.injEq] at h ⊢
      exact ⟨h.1, by rw [← h.2]⟩
  | case5 a b c d rest hnone hne =>
    intro s r ext h
    rw [parseStringBody_uEscNone a b c d rest hnone] at h
    exact absurd h (by simp)
  | case6 rest hshape hne =>
    intro s r ext h
    exfalso
    cases rest with
    | nil => exact absurd (by rw [show parseStringBody ['\\', 'u'] = none from rfl] at h; exact h) (by simp)
    | cons x1 t1 =>
      cases t1 with
      | nil =>
        have h0 : parseStringBody ('\\' :: 'u' :: x1 :: []) = none := rfl
        rw [h0] at h
        exact absurd h (by simp)
      | cons x2 t2 =>
        cases t2 with
        | nil =>
          have h0 : parseStringBody ('\\' :: 'u' :: x1 :: x2 :: []) = none := rfl
          rw [h0] at h
          exact absurd h (by simp)
        | cons x3 t3 =>
          cases t3 with
          | nil =>
            have h0 : parseStringBody ('\\' :: 'u' :: x1 :: x2 :: x3 :: []) = none := rfl
            rw [h0] at h
            exact absurd h (by simp)
          | cons x4 t4 =>
            exact hshape x1 x2 x3 x4 t4 rfl
  | case7 c rest hcu ec hesc hne ih =>
    intro s r ext h
    rw [parseStringBody_esc c rest ec hcu hesc] at h
    show parseStringBody ('\\' :: c :: (rest ++ ext)) = some (s, r ++ ext)
    rw [parseStringBody_esc c (rest ++ ext) ec hcu hesc]
    cases hps : parseStringBody rest with
    | none => rw [hps] at h; simp at h
    | some sr =>
      rw [hps] at h
      rw [ih sr.1 sr.2 ext (by rw [hps])]
      simp only [Option.map_some'] at h ⊢
      rw [Option.some.injEq, Prod.mk.injEq] at h ⊢
      exact ⟨h.1, by rw [← h.2]⟩
  | case8 c rest hcu hesc hne =>
    intro s r ext h
    rw [parseStringBody_escNone c rest hcu hesc] at h
    exact absurd h (by simp)
  | case9 c rest hq hb hctrl =>
    intro s r ext h
    rw [parseStringBody_ctrl c rest hq hb hctrl] at h
    exact absurd h (by simp)
  | case10 c rest hq hb hctrl ih =>
    intro s r ext h
    rw [parseStringBody_plain c rest hq hb hctrl] at h
    show parseStringBody (c :: (rest ++ ext)) = some (s, r ++ ext)
    rw [parseStringBody_plain c (rest ++ ext) hq hb hctrl]
    cases hps : parseStringBody rest with
    | none => rw [hps] at h; simp at h
    | some sr =>
      rw [hps] at h
      rw [ih sr.1 sr.2 ext (by rw [hps])]
      simp only [Option.map_some'] at h ⊢
      rw [Option.some.injEq, Prod.mk.injEq] at h ⊢
      exact ⟨h.1, by rw [← h.2]⟩

theorem parseValue_zero (cs : List Char) : parseValue 0 cs = none := rfl

theorem parseValue_succ (f : Nat) (cs : List Char) :
    parseValue (f + 1) cs =
      match skipWs cs with
      | [] => none
      | c :: rest =>
        if c = '{' then parseObjectBody f rest
        else if c = '[' then parseArrayBody f rest
        else if c = '"' then
          match parseStringBody rest with
          | some sr => some (.str ⟨sr.1⟩, sr.2)
          | none => none
        else if c = 't' then
          if listStarts "rue".toList rest then some (.bool true, rest.drop 3) else none
        else if c = 'f' then
          if listStarts "alse".toList rest then some (.bool false, rest.drop 4) else none
        else if c = 'n' then
          if listStarts "ull".toList rest then some (.null, rest.drop 3) else none
        else parseNumberFrom (c :: rest) := rfl

theorem parseObjectBody_zero (cs : List Char) : parseObjectBody 0 cs = none := rfl

theorem parseObjectBody_succ (f : Nat) (cs : List Char) :
    parseObjectBody (f + 1) cs =
      match skipWs cs with
      | '}' :: rest => some (.obj [], rest)
      | _ => parseMembers f cs := rfl

theorem parseMembers_zero (cs : List Char) : parseMembers 0 cs = none := rfl

theorem parseMembers_succ (f : Nat) (cs : List Char) :
    parseMembers (f + 1) cs =
      match skipWs cs with
      | '"' :: rest =>
        match parseStringBody rest with
        | none => none
        | some (k, r1) =>
          match skipWs r1 with
          | ':' :: r2 =>
            match parseValue f r2 with
            | none => none
            | some (v, r3) =>
              match skipWs r3 with
              | ',' :: r4 =>
                match parseMembers f r4 with
                | some (.obj ms, r5) => some (.obj ((⟨k⟩, v) :: ms), r5)
                | _ => none
              | '}' :: r4 => some (.obj [(⟨k⟩, v)], r4)
              | _ => none
          | _ => none
      | _ => none := rfl

theorem parseArrayBody_zero (cs : List Char) : parseArrayBody 0 cs = none := rfl

theorem parseArrayBody_succ (f : Nat) (cs : List Char) :
    parseArrayBody (f + 1) cs =
      match skipWs cs with
      | ']' :: rest => some (.arr [], rest)
      | _ => parseElems f cs := rfl

theorem parseElems_zero (cs : List Char) : parseElems 0 cs = none := rfl

theorem parseElems_succ (f : Nat) (cs : List Char) :
    parseElems (f + 1) cs =
      match parseValue f cs with
      | none => none
      | some (v, r1) =>
        match skipWs r1 with
        | ',' :: r2 =>
          match parseElems f r2 with
          | some (.arr vs, r3) => some (.arr (v :: vs), r3)
          | _ => none
        | ']' :: r2 => some (.arr [v], r2)
        | _ => none := rfl

theorem parseValue_ws_nil (f : Nat) (cs : List Char) (hsw : skipWs cs = []) :
    parseValue f cs = none := by
  cases f with
  | zero => rfl
  | succ f => rw [parseValue_succ, hsw]

theorem parseMembers_ws_nil (f : Nat) (cs : List Char) (hsw : skipWs cs = []) :
    parseMembers f cs = none := by
  cases f with
  | zero => rfl
  | succ f => rw [parseMembers_succ, hsw]

theorem parseElems_ws_nil (f : Nat) (cs : List Char) (hsw : skipWs cs = []) :
    parseElems f cs = none := by
  cases f with
  | zero => rfl
  | succ f => rw [parseElems_succ, parseValue_ws_nil f cs hsw]

theorem parserExtMono (f : Nat) :
    (∀ g cs v rest ext, parseValue f cs = some (v, rest) →
      (rest ≠ [] ∨ v.isNum = false) →
      parseValue (f + g) (cs ++ ext) = some (v, rest ++ ext))
    ∧ (∀ g cs v rest ext, parseObjectBody f cs = some (v, rest) →
      parseObjectBody (f + g) (cs ++ ext) = some (v, rest ++ ext))
    ∧ (∀ g cs v rest ext, parseMembers f cs = some (v, rest) →
      parseMembers (f + g) (cs ++ ext) = some (v, rest ++ ext))
    ∧ (∀ g cs v rest ext, parseArrayBody f cs = some (v, rest) →
      parseArrayBody (f + g) (cs ++ ext) = some (v, rest ++ ext))
    ∧ (∀ g cs v rest ext, parseElems f cs = some (v, rest) →
      parseElems (f + g) (cs ++ ext) = some (v, rest ++ ext)) := by
  induction f with
  | zero =>
    refine ⟨?_, ?_, ?_, ?_, ?_⟩ <;> intro g cs v rest ext h
    · exact absurd h (by rw [parseValue_zero]; simp)
    · exact absurd h (by rw [parseObjectBody_zero]; simp)
    · exact absurd h (by rw [parseMembers_zero]; simp)
    · exact absurd h (by rw [parseArrayBody_zero]; simp)
    · exact absurd h (by rw [parseElems_zero]; simp)
  | succ f ih =>
    obtain ⟨ihV, ihO, ihM, ihA, ihE⟩ := ih
    refine ⟨?_, ?_, ?_, ?_, ?_⟩
    · -- parseValue
      intro g cs v rest ext h hside
      rw [Nat.add_right_comm f 1 g]
      rw [parseValue_succ] at h
      cases hsw : skipWs cs with
      | nil => rw [hsw] at h; exact Option.noConfusion h
      | cons c r =>
        rw [hsw] at h
        have hsw' := skipWs_cons_append cs ext c r hsw
        by_cases hc1 : c = '{'
        · simp only [if_pos hc1] at h
          simp only [parseValue_succ, hsw', if_pos hc1]
          exact ihO g r v rest ext h
        · by_cases hc2 : c = '['
          · simp only [if_neg hc1, if_pos hc2] at h
            simp only [parseValue_succ, hsw', if_neg hc1, if_pos hc2]
            exact ihA g r v rest ext h
          · by_cases hc3 : c = '"'
            · simp only [if_neg hc1, if_neg hc2, if_pos hc3] at h
              simp only [parseValue_succ, hsw', if_neg hc1, if_neg hc2, if_pos hc3]
              cases hps : parseStringBody r with
              | none => rw [hps] at h; exact Option.noConfusion h
              | some sr =>
                rw [hps] at h
                simp only [parseStringBody_append r sr.1 sr.2 ext (by rw [hps])]
                simp only [Option.some.injEq, Prod.mk.injEq] at h ⊢
                exact ⟨h.1, by rw [← h.2]⟩
            · by_cases hc4 : c = 't'
              · simp only [if_neg hc1, if_neg hc2, if_neg hc3, if_pos hc4] at h
                simp only [parseValue_succ, hsw', if_neg hc1, if_neg hc2, if_neg hc3,
                  if_pos hc4]
                by_cases hL : listStarts "rue".toList r = true
                · rw [if_pos hL] at h
                  rw [if_pos (listStarts_append "rue".toList r ext hL).1]
                  have hd := (listStarts_append "rue".toList r ext hL).2
                  rw [show ("rue".toList).length = 3 from rfl] at hd
                  simp only [Option.some.injEq, Prod.mk.injEq] at h ⊢
                  exact ⟨h.1, by rw [hd, ← h.2]⟩
                · rw [if_neg hL] at h
                  exact Option.noConfusion h
              · by_cases hc5 : c = 'f'
                · simp only [if_neg hc1, if_neg hc2, if_neg hc3, if_neg hc4,
                    if_pos hc5] at h
                  simp only [parseValue_succ, hsw', if_neg hc1, if_neg hc2, if_neg hc3,
                    if_neg hc4, if_pos hc5]
                  by_cases hL : listStarts "alse".toList r = true
                  · rw [if_pos hL] at h
                    rw [if_pos (listStarts_append "alse".toList r ext hL).1]
                    have hd := (listStarts_append "alse".toList r ext hL).2
                    rw [show ("alse".toList).length = 4 from rfl] at hd
                    simp only [Option.some.injEq, Prod.mk.injEq] at h ⊢
                    exact ⟨h.1, by rw [hd, ← h.2]⟩
                  · rw [if_neg hL] at h
                    exact Option.noConfusion h
                · by_cases hc6 : c = 'n'
                  · simp only [if_neg hc1, if_neg hc2, if_neg hc3, if_neg hc4,
                      if_neg hc5, if_pos hc6] at h
                    simp only [parseValue_succ, hsw', if_neg hc1, if_neg hc2,
                      if_neg hc3, if_neg hc4, if_neg hc5, if_pos hc6]
                    by_cases hL : listStarts "ull".toList r = true
                    · rw [if_pos hL] at h
                      rw [if_pos (listStarts_append "ull".toList r ext hL).1]
                      have hd := (listStarts_append "ull".toList r ext hL).2
                      rw [show ("ull".toList).length = 3 from rfl] at hd
                      simp only [Option.some.injEq, Prod.mk.injEq] at h ⊢
                      exact ⟨h.1, by rw [hd, ← h.2]⟩
                    · rw [if_neg hL] at h
                      exact Option.noConfusion h
                  · simp only [if_neg hc1, if_neg hc2, if_neg hc3, if_neg hc4,
                      if_neg hc5, if_neg hc6] at h
                    simp only [parseValue_succ, hsw', if_neg hc1, if_neg hc2,
                      if_neg hc3, if_neg hc4, if_neg hc5, if_neg hc6]
                    have hnum : v.isNum = true := by
                      cases ht : (c :: r).takeWhile numChar with
                      | nil =>
                        rw [parseNumberFrom.eq_def, ht] at h
                        exact Option.noConfusion h
                      | cons d ds =>
                        rw [parseNumberFrom_eq_of_takeWhile (c :: r) d ds ht] at h
                        by_cases hvn : validNumber (d :: ds) = true
                        · rw [if_pos hvn] at h
                          simp only [Option.some.injEq, Prod.mk.injEq] at h
                          rw [← h.1]
                          rfl
                        · rw [if_neg hvn] at h
                          exact Option.noConfusion h
                    have hrest : rest ≠ [] :=
                      hside.resolve_right (by rw [hnum]; simp)
                    exact parseNumberFrom_append (c :: r) v rest ext h hrest
    · -- parseObjectBody
      intro g cs v rest ext h
      rw [Nat.add_right_comm f 1 g]
      rw [parseObjectBody_succ] at h
      split at h
      · rename_i r heq
        simp only [Option.some.injEq, Prod.mk.injEq] at h
        simp only [parseObjectBody_succ, skipWs_cons_append cs ext '}' r heq,
          Option.some.injEq, Prod.mk.injEq]
        exact ⟨h.1, by rw [← h.2]⟩
      · rename_i hnm
        cases hsw : skipWs cs with
        | nil => rw [parseMembers_ws_nil f cs hsw] at h; exact Option.noConfusion h
        | cons c r =>
          have hcne : ¬c = '}' := by
            intro hc
            exact hnm r (by rw [hsw, hc])
          have hsw' := skipWs_cons_append cs ext c r hsw
          simp only [parseObjectBody_succ, hsw']
          have hgoal := ihM g cs v rest ext h
          split
          · rename_i r2 heq2
            exact absurd (List.cons.injEq .. |>.mp heq2).1 hcne
          · exact hgoal
    · -- parseMembers
      intro g cs v rest ext h
      rw [Nat.add_right_comm f 1 g]
      rw [parseMembers_succ] at h
      split at h
      · rename_i r heq
        have hsw' := skipWs_cons_append cs ext '"' r heq
        split at h
        · exact Option.noConfusion h
        · rename_i k r1 hps
          have hps' := parseStringBody_append r k r1 ext hps
          split at h
          · rename_i r2 hcol
            have hr1 : r1 ≠ [] := skipWs_ne_nil_of_cons r1 ':' r2 hcol
            have hcol' := skipWs_cons_append r1 ext ':' r2 hcol
            -- careful: parseStringBody_append gives rest r1 ++ ext, and hcol is about r1
            split at h
            · exact Option.noConfusion h
            · rename_i v0 r3 hval
              split at h
              · rename_i r4 hcomma
                have hr3 : r3 ≠ [] := skipWs_ne_nil_of_cons r3 ',' r4 hcomma
                have hval' := ihV g r2 v0 r3 ext hval (Or.inl hr3)
                have hcomma' := skipWs_cons_append r3 ext ',' r4 hcomma
                split at h
                · rename_i ms r5 hrec
                  have hrec' := ihM g r4 (.obj ms) r5 ext hrec
                  simp only [Option.some.injEq, Prod.mk.injEq] at h
                  simp only [parseMembers_succ, hsw', hps', hcol', hval', hcomma',
                    hrec', Option.some.injEq, Prod.mk.injEq]
                  exact ⟨h.1, by rw [← h.2]⟩
                · exact Option.noConfusion h
              · rename_i r4 hbrace
                have hr3 : r3 ≠ [] := skipWs_ne_nil_of_cons r3 '}' r4 hbrace
                have hval' := ihV g r2 v0 r3 ext hval (Or.inl hr3)
                have hbrace' := skipWs_cons_append r3 ext '}' r4 hbrace
                simp only [Option.some.injEq, Prod.mk.injEq] at h
                simp only [parseMembers_succ, hsw', hps', hcol', hval', hbrace',
                  Option.some.injEq, Prod.mk.injEq]
                exact ⟨h.1, by rw [← h.2]⟩
              · exact Option.noConfusion h
          · exact Option.noConfusion h
      · exact Option.noConfusion h
    · -- parseArrayBody
      intro g cs v rest ext h
      rw [Nat.add_right_comm f 1 g]
      rw [parseArrayBody_succ] at h
      split at h
      · rename_i r heq
        simp only [Option.some.injEq, Prod.mk.injEq] at h
        simp only [parseArrayBody_succ, skipWs_cons_append cs ext ']' r heq,
          Option.some.injEq, Prod.mk.injEq]
        exact ⟨h.1, by rw [← h.2]⟩
      · rename_i hnm
        cases hsw : skipWs cs with
        | nil =>
          rw [parseElems_ws_nil f cs hsw] at h
          exact Option.noConfusion h
        | cons c r =>
          have hcne : ¬c = ']' := by
            intro hc
            exact hnm r (by rw [hsw, hc])
          have hsw' := skipWs_cons_append cs ext c r hsw
          simp only [parseArrayBody_succ, hsw']
          have hgoal := ihE g cs v rest ext h
          split
          · rename_i r2 heq2
            exact absurd (List.cons.injEq .. |>.mp heq2).1 hcne
          · exact hgoal
    · -- parseElems
      intro g cs v rest ext h
      rw [Nat.add_right_comm f 1 g]
      rw [parseElems_succ] at h
      split at h
      · exact Option.noConfusion h
      · rename_i v0 r1 hval
        split at h
        · rename_i r2 hcomma
          have hr1 : r1 ≠ [] := skipWs_ne_nil_of_cons r1 ',' r2 hcomma
          have hval' := ihV g cs v0 r1 ext hval (Or.inl hr1)
          have hcomma' := skipWs_cons_append r1 ext ',' r2 hcomma
          split at h
          · rename_i vs r3 hrec
            have hrec' := ihE g r2 (.arr vs) r3 ext hrec
            simp only [Option.some.injEq, Prod.mk.injEq] at h
            simp only [parseElems_succ, hval', hcomma', hrec',
              Option.some.injEq, Prod.mk.injEq]
            exact ⟨h.1, by rw [← h.2]⟩
          · exact Option.noConfusion h
        · rename_i r2 hket
          have hr1 : r1 ≠ [] := skipWs_ne_nil_of_cons r1 ']' r2 hket
          have hval' := ihV g cs v0 r1 ext hval (Or.inl hr1)
          have hket' := skipWs_cons_append r1 ext ']' r2 hket
          simp only [Option.some.injEq, Prod.mk.injEq] at h
          simp only [parseElems_succ, hval', hket',
            Option.some.injEq, Prod.mk.injEq]
          exact ⟨h.1, by rw [← h.2]⟩
        · exact Option.noConfusion h

end scanner

namespace scanner

theorem moduleFromJson_zero (j : Json) : moduleFromJson 0 j = none := rfl

theorem moduleFromJson_succ_obj (f : Nat) (ms : List (String × Json)) :
    moduleFromJson (f + 1) (.obj ms) = applyMembers f ms zeroModule := rfl

theorem moduleFromJson_succ_null (f : Nat) :
    moduleFromJson (f + 1) .null = some zeroModule := rfl

theorem applyMembers_zero (ms : List (String × Json)) (m : Module) :
    applyMembers 0 ms m = none := rfl

theorem applyMembers_succ_nil (f : Nat) (m : Module) :
    applyMembers (f + 1) [] m = some m := rfl

theorem applyMembers_succ_cons (f : Nat) (kv : String × Json)
    (rest : List (String × Json)) (m : Module) :
    applyMembers (f + 1) (kv :: rest) m =
      match setModuleField f m kv.1 kv.2 with
      | none => none
      | some m2 => applyMembers f rest m2 := rfl

theorem setModuleField_zero (m : Module) (k : String) (v : Json) :
    setModuleField 0 m k v = none := rfl

theorem setModuleField_succ (f : Nat) (m : Module) (k : String) (v : Json) :
    setModuleField (f + 1) m k v =
      (if k = "Path" then
        match v with
        | .str s => some (m.setPath s)
        | .null => some m
        | _ => none
      else if k = "Version" then
        match v with
        | .str s => some (m.setVersion s)
        | .null => some m
        | _ => none
      else if k = "Time" then
        match v with
        | .str s => some (m.setTime s)
        | .null => some m
        | _ => none
      else if k = "Indirect" then
        match v with
        | .bool b => some (m.setIndirect b)
        | .null => some m
        | _ => none
      else if k = "Update" then
        match v with
        | .null => some m
        | .obj ms =>
          match moduleFromJson f (.obj ms) with
          | some um => some (m.setUpdate (some um))
          | none => none
        | _ => none
      else some m) := rfl

theorem moduleFromJson_not_num (f : Nat) (j : Json) (m : Module)
    (h : moduleFromJson f j = some m) : j.isNum = false := by
  cases f with
  | zero => rw [moduleFromJson_zero] at h; exact Option.noConfusion h
  | succ f =>
    cases j with
    | obj ms => rfl
    | null => rfl
    | bool b => exact Option.noConfusion h
    | num lit => exact Option.noConfusion h
    | str s => exact Option.noConfusion h
    | arr xs => exact Option.noConfusion h

theorem moduleFromJsonMono (f : Nat) :
    (∀ g j m, moduleFromJson f j = some m → moduleFromJson (f + g) j = some m)
    ∧ (∀ g ms m0 m, applyMembers f ms m0 = some m → applyMembers (f + g) ms m0 = some m)
    ∧ (∀ g m0 k v m, setModuleField f m0 k v = some m →
        setModuleField (f + g) m0 k v = some m) := by
  induction f with
  | zero =>
    refine ⟨?_, ?_, ?_⟩
    · intro g j m h; rw [moduleFromJson_zero] at h; exact Option.noConfusion h
    · intro g ms m0 m h; rw [applyMembers_zero] at h; exact Option.noConfusion h
    · intro g m0 k v m h; rw [setModuleField_zero] at h; exact Option.noConfusion h
  | succ f ih =>
    obtain ⟨ihJ, ihA, ihS⟩ := ih
    refine ⟨?_, ?_, ?_⟩
    · intro g j m h
      rw [Nat.add_right_comm f 1 g]
      cases j with
      | obj ms =>
        rw [moduleFromJson_succ_obj] at h
        rw [moduleFromJson_succ_obj]
        exact ihA g ms zeroModule m h
      | null =>
        rw [moduleFromJson_succ_null] at h
        rw [moduleFromJson_succ_null]
        exact h
      | bool b => exact Option.noConfusion h
      | num lit => exact Option.noConfusion h
      | str s => exact Option.noConfusion h
      | arr xs => exact Option.noConfusion h
    · intro g ms m0 m h
      rw [Nat.add_right_comm f 1 g]
      cases ms with
      | nil =>
        rw [applyMembers_succ_nil] at h
        rw [applyMembers_succ_nil]
        exact h
      | cons kv rest =>
        rw [applyMembers_succ_cons] at h
        rw [applyMembers_succ_cons]
        cases hset : setModuleField f m0 kv.1 kv.2 with
        | none => rw [hset] at h; exact Option.noConfusion h
        | some m2 =>
          rw [hset] at h
          rw [ihS g m0 kv.1 kv.2 m2 hset]
          exact ihA g rest m2 m h
    · intro g m0 k v m h
      rw [Nat.add_right_comm f 1 g]
      rw [setModuleField_succ] at h
      rw [setModuleField_succ]
      by_cases hk1 : k = "Path"
      · rw [if_pos hk1] at h; rw [if_pos hk1]; exact h
      · rw [if_neg hk1] at h; rw [if_neg hk1]
        by_cases hk2 : k = "Version"
        · rw [if_pos hk2] at h; rw [if_pos hk2]; exact h
        · rw [if_neg hk2] at h; rw [if_neg hk2]
          by_cases hk3 : k = "Time"
          · rw [if_pos hk3] at h; rw [if_pos hk3]; exact h
          · rw [if_neg hk3] at h; rw [if_neg hk3]
            by_cases hk4 : k = "Indirect"
            · rw [if_pos hk4] at h; rw [if_pos hk4]; exact h
            · rw [if_neg hk4] at h; rw [if_neg hk4]
              by_cases hk5 : k = "Update"
              · rw [if_pos hk5] at h; rw [if_pos hk5]
                cases v with
                | null => exact h
                | obj ms =>
                  have h' : (match moduleFromJson f (.obj ms) with
                      | some um => some (m0.setUpdate (some um))
                      | none => none) = some m := h
                  show (match moduleFromJson (f + g) (.obj ms) with
                      | some um => some (m0.setUpdate (some um))
                      | none => none) = some m
                  cases hrec : moduleFromJson f (.obj ms) with
                  | none => rw [hrec] at h'; exact Option.noConfusion h'
                  | some um =>
                    rw [hrec] at h'
                    rw [ihJ g (.obj ms) um hrec]
                    exact h'
                | bool b => exact Option.noConfusion h
                | num lit => exact Option.noConfusion h
                | str s => exact Option.noConfusion h
                | arr xs => exact Option.noConfusion h
              · rw [if_neg hk5] at h; rw [if_neg hk5]; exact h

theorem concatChars_nil : concatChars [] = [] := rfl

theorem concatChars_cons (s : String) (l : List String) :
    concatChars (s :: l) = s.toList ++ concatChars l := rfl

theorem foldl_append_data (l : List String) :
    ∀ init : String, (l.foldl (· ++ ·) init).toList = init.toList ++ concatChars l := by
  induction l with
  | nil => intro init; simp [concatChars_nil]
  | cons s rest ih =>
    intro init
    rw [List.foldl_cons, concatChars_cons, ih (init ++ s)]
    show (init ++ s).data ++ concatChars rest = init.data ++ (s.data ++ concatChars rest)
    rw [String.data_append, List.append_assoc]

theorem join_toList (l : List String) :
    (String.join l).toList = concatChars l := by
  show (l.foldl (· ++ ·) "").toList = concatChars l
  rw [foldl_append_data l ""]
  rfl

theorem decodeLoop_zero (pf : Nat) (cs : List Char) :
    decodeLoop pf 0 cs = .error "failed to decode json" := rfl

theorem decodeLoop_succ (pf lf : Nat) (cs : List Char) :
    decodeLoop pf (lf + 1) cs =
      if moreValues cs then
        match decodeOneModule pf cs with
        | none => .error "failed to decode json"
        | some (m, rest) =>
          match decodeLoop pf lf rest with
          | .ok ms => .ok (m :: ms)
          | .error e => .error e
      else .ok [] := rfl

theorem parseValue_head_not_close (f : Nat) (cs : List Char) (v : Json)
    (rest : List Char) (c : Char) (t : List Char) (hsw : skipWs cs = c :: t)
    (h : parseValue f cs = some (v, rest)) : (c = ']' || c = '}') = false := by
  cases f with
  | zero => rw [parseValue_zero] at h; exact Option.noConfusion h
  | succ f =>
    rw [parseValue_succ, hsw] at h
    by_cases h1 : c = ']'
    · exfalso
      subst h1
      simp only [reduceIte] at h
      rw [parseNumberFrom.eq_def] at h
      rw [show ((']' :: t).takeWhile numChar) = [] from by
        rw [List.takeWhile_cons, if_neg (by decide : ¬numChar ']' = true)]] at h
      exact Option.noConfusion h
    · by_cases h2 : c = '}'
      · exfalso
        subst h2
        simp only [reduceIte] at h
        rw [parseNumberFrom.eq_def] at h
        rw [show (('}' :: t).takeWhile numChar) = [] from by
          rw [List.takeWhile_cons, if_neg (by decide : ¬numChar '}' = true)]] at h
        exact Option.noConfusion h
      · simp [h1, h2]

theorem decodeOneModule_head_not_close (fuel : Nat) (s : List Char) (m : Module)
    (r : List Char) (c : Char) (t : List Char) (hsw : skipWs s = c :: t)
    (h : decodeOneModule fuel s = some (m, r)) : (c = ']' || c = '}') = false := by
  unfold decodeOneModule at h
  cases hpv : parseValue fuel s with
  | none => rw [hpv] at h; exact Option.noConfusion h
  | some jr =>
    exact parseValue_head_not_close fuel s jr.1 jr.2 c t hsw (by rw [hpv])

theorem decodeOneModule_ext (l pf : Nat) (hle : l ≤ pf) (s R : List Char) (m : Module)
    (h : decodeOneModule l s = some (m, [])) :
    decodeOneModule pf (s ++ R) = some (m, R) := by
  obtain ⟨g, rfl⟩ := Nat.exists_eq_add_of_le hle
  unfold decodeOneModule at h
  cases hpv : parseValue l s with
  | none => rw [hpv] at h; exact Option.noConfusion h
  | some jr =>
    obtain ⟨j, rest⟩ := jr
    rw [hpv] at h
    have h' : (match moduleFromJson l j with
        | none => none
        | some m0 => some (m0, rest)) = some (m, []) := h
    cases hmj : moduleFromJson l j with
    | none => rw [hmj] at h'; exact Option.noConfusion h'
    | some m' =>
      rw [hmj] at h'
      rw [Option.some.injEq, Prod.mk.injEq] at h'
      have hnn := moduleFromJson_not_num l j m' hmj
      have hrest : rest = [] := h'.2
      have hpv' := (parserExtMono l).1 g s j rest R hpv (Or.inr hnn)
      rw [hrest, List.nil_append] at hpv'
      show (match parseValue (l + g) (s ++ R) with
          | none => none
          | some (j0, rest0) =>
            match moduleFromJson (l + g) j0 with
            | none => none
            | some m0 => some (m0, rest0)) = some (m, R)
      rw [hpv']
      show (match moduleFromJson (l + g) j with
          | none => none
          | some m0 => some (m0, R)) = some (m, R)
      rw [(moduleFromJsonMono l).1 g j m' hmj]
      show some (m', R) = some (m, R)
      rw [h'.1]

theorem decodeOneModule_skipWs_ne (fuel : Nat) (s : List Char) (m : Module)
    (r : List Char) (h : decodeOneModule fuel s = some (m, r)) : skipWs s ≠ [] := by
  intro hsw
  unfold decodeOneModule at h
  rw [parseValue_ws_nil fuel s hsw] at h
  exact Option.noConfusion h

theorem length_pos_of_skipWs_ne (s : List Char) (h : skipWs s ≠ []) :
    1 ≤ s.length := by
  cases s with
  | nil => exact absurd rfl h
  | cons c r => simp

theorem elem_le_concat (ps : List (String × Module)) :
    ∀ p ∈ ps, p.1.toList.length ≤ (concatChars (ps.map Prod.fst)).length := by
  induction ps with
  | nil => intro p hp; simp at hp
  | cons q rest ih =>
    intro p hp
    rw [List.map_cons, concatChars_cons, List.length_append]
    rcases List.mem_cons.mp hp with rfl | hp'
    · exact Nat.le_add_right _ _
    · exact le_trans (ih p hp') (Nat.le_add_left _ _)

theorem count_le_concat (ps : List (String × Module))
    (h : ∀ p ∈ ps, 1 ≤ p.1.toList.length) :
    ps.length ≤ (concatChars (ps.map Prod.fst)).length := by
  induction ps with
  | nil => simp
  | cons q rest ih =>
    rw [List.map_cons, concatChars_cons, List.length_append, List.length_cons]
    have h1 := h q (List.mem_cons_self q rest)
    have h2 := ih (fun p hp => h p (List.mem_cons_of_mem _ hp))
    omega

theorem decodeLoop_consumes (pf : Nat) (ps : List (String × Module)) :
    (∀ p ∈ ps, DecodesToModule p.1 p.2) →
    (∀ p ∈ ps, p.1.toList.length + 1 ≤ pf) →
    ∀ (lfs : Nat) (suffix : List Char),
      decodeLoop pf (lfs + ps.length) (concatChars (ps.map Prod.fst) ++ suffix) =
        (match decodeLoop pf lfs suffix with
          | .ok ms => .ok (ps.map Prod.snd ++ ms)
          | .error e => .error e) := by
  induction ps with
  | nil =>
    intro _ _ lfs suffix
    simp only [List.map_nil, concatChars_nil, List.nil_append, List.length_nil,
      Nat.add_zero]
    cases hres : decodeLoop pf lfs suffix with
    | ok ms => simp
    | error e => simp
  | cons p rest ih =>
    intro hvalid hfuel lfs suffix
    obtain ⟨s, m⟩ := p
    have hv := hvalid (s, m) (List.mem_cons_self _ _)
    have hf := hfuel (s, m) (List.mem_cons_self _ _)
    have hswne : skipWs s.toList ≠ [] := decodeOneModule_skipWs_ne _ _ _ _ hv
    simp only [List.map_cons, concatChars_cons, List.length_cons]
    rw [List.append_assoc, Nat.add_succ, decodeLoop_succ]
    cases hsw : skipWs s.toList with
    | nil => exact absurd hsw hswne
    | cons c r =>
      have hgate := decodeOneModule_head_not_close (s.toList.length + 1) s.toList
        m [] c r hsw hv
      have hmore : moreValues (s.toList ++ (concatChars (rest.map Prod.fst)
          ++ suffix)) = true := by
        unfold moreValues
        rw [skipWs_cons_append s.toList _ c r hsw]
        simp only [hgate]
        rfl
      rw [if_pos hmore]
      have hdec := decodeOneModule_ext (s.toList.length + 1) pf hf s.toList
        (concatChars (rest.map Prod.fst) ++ suffix) m hv
      simp only [hdec]
      rw [ih (fun q hq => hvalid q (List.mem_cons_of_mem _ hq))
        (fun q hq => hfuel q (List.mem_cons_of_mem _ hq)) lfs suffix]
      cases hres : decodeLoop pf lfs suffix with
      | ok ms => simp
      | error e => simp

/-- C3: `DecodeGoListModules` on a buffer of zero or more consecutive JSON
objects: the empty buffer decodes to the empty sequence without error; a
buffer made of pieces that each decode to one record decodes to exactly
those records in input order; and when after any prefix of good pieces the
decoder still sees a further value (`decoder.More()` is true on the
remaining suffix) but that value fails to decode at every fuel, the whole
decode is a hard error carrying no partial records. -/
theorem decodeGoListModules_spec :
    (DecodeGoListModules "" = .ok [])
    ∧ (∀ ps : List (String × Module), (∀ p ∈ ps, DecodesToModule p.1 p.2) →
        DecodeGoListModules (String.join (ps.map Prod.fst)) = .ok (ps.map Prod.snd))
    ∧ (∀ (ps : List (String × Module)) (bad : String),
        (∀ p ∈ ps, DecodesToModule p.1 p.2) →
        moreValues bad.toList = true →
        (∀ fuel, decodeOneModule fuel bad.toList = none) →
        DecodeGoListModules (String.join (ps.map Prod.fst) ++ bad)
          = .error "failed to decode json") := by
  refine ⟨rfl, ?_, ?_⟩
  · intro ps hvalid
    unfold DecodeGoListModules
    rw [join_toList]
    have hone : ∀ p ∈ ps, 1 ≤ p.1.toList.length := by
      intro p hp
      exact length_pos_of_skipWs_ne p.1.toList
        (decodeOneModule_skipWs_ne _ _ _ _ (hvalid p hp))
    have hcount := count_le_concat ps hone
    have hfuel : ∀ p ∈ ps, p.1.toList.length + 1 ≤
        (concatChars (ps.map Prod.fst)).length + 1 := by
      intro p hp
      exact Nat.add_le_add_right (elem_le_concat ps p hp) 1
    have harith : ((concatChars (ps.map Prod.fst)).length + 1 - ps.length)
        + ps.length = (concatChars (ps.map Prod.fst)).length + 1 := by omega
    have hD := decodeLoop_consumes ((concatChars (ps.map Prod.fst)).length + 1) ps
      hvalid hfuel ((concatChars (ps.map Prod.fst)).length + 1 - ps.length) []
    rw [List.append_nil, harith] at hD
    rw [hD]
    have hsplit : (concatChars (ps.map Prod.fst)).length + 1 - ps.length
        = ((concatChars (ps.map Prod.fst)).length - ps.length) + 1 := by omega
    rw [hsplit, decodeLoop_succ]
    simp [moreValues, skipWs]
  · intro ps bad hvalid hmore hbad
    unfold DecodeGoListModules
    have htl : (String.join (ps.map Prod.fst) ++ bad).toList
        = concatChars (ps.map Prod.fst) ++ bad.toList := by
      show (String.join (ps.map Prod.fst) ++ bad).data
        = concatChars (ps.map Prod.fst) ++ bad.data
      rw [String.data_append]
      rw [show (String.join (ps.map Prod.fst)).data
        = concatChars (ps.map Prod.fst) from join_toList (ps.map Prod.fst)]
    rw [htl]
    have hone : ∀ p ∈ ps, 1 ≤ p.1.toList.length := by
      intro p hp
      exact length_pos_of_skipWs_ne p.1.toList
        (decodeOneModule_skipWs_ne _ _ _ _ (hvalid p hp))
    have hcount := count_le_concat ps hone
    have hlen : (concatChars (ps.map Prod.fst) ++ bad.toList).length
        = (concatChars (ps.map Prod.fst)).length + bad.toList.length :=
      List.length_append _ _
    have hfuel : ∀ p ∈ ps, p.1.toList.length + 1 ≤
        (concatChars (ps.map Prod.fst) ++ bad.toList).length + 1 := by
      intro p hp
      rw [hlen]
      have := elem_le_concat ps p hp
      omega
    have harith : ((concatChars (ps.map Prod.fst) ++ bad.toList).length + 1
        - ps.length) + ps.length
        = (concatChars (ps.map Prod.fst) ++ bad.toList).length + 1 := by
      rw [hlen]
      omega
    have hD := decodeLoop_consumes
      ((concatChars (ps.map Prod.fst) ++ bad.toList).length + 1) ps hvalid hfuel
      ((concatChars (ps.map Prod.fst) ++ bad.toList).length + 1 - ps.length)
      bad.toList
    rw [harith] at hD
    rw [hD]
    have hsplit : (concatChars (ps.map Prod.fst) ++ bad.toList).length + 1
        - ps.length
        = ((concatChars (ps.map Prod.fst) ++ bad.toList).length - ps.length) + 1 := by
      rw [hlen]
      omega
    rw [hsplit, decodeLoop_succ, if_pos hmore]
    simp only [hbad]

/-- Witness for C3: two back-to-back JSON objects with no separator decode
to two records in input order. -/
theorem decodeGoListModules_spec_witness :
    DecodeGoListModules
        (String.join ["\x7b\"Path\":\"a\"\x7d", "\x7b\"Path\":\"b\"\x7d"])
      = .ok [c3ModA, c3ModB] := by
  have h := decodeGoListModules_spec.2.1
    [("\x7b\"Path\":\"a\"\x7d", c3ModA), ("\x7b\"Path\":\"b\"\x7d", c3ModB)]
    (by
      intro p hp
      rcases List.mem_cons.mp hp with rfl | hp'
      · exact rfl
      rcases List.mem_cons.mp hp' with rfl | hp''
      · exact rfl
      simp at hp'')
  exact h

end scanner
